import Mathlib

/-!
Verification of the template-evaluation core of this repository against its
specification.  The Python sources are shallowly embedded: each definition
below carries a comment naming the source function it translates.  Text is
modelled as `List Char` (Python `str` indexing is by code point), machine
integers as `Nat` with explicit `% 2^32` where the source uses 32-bit
arithmetic, and raised exceptions as `Except PyErr`.
-/

set_option maxRecDepth 10000

/-- Structured counterpart of the exceptions raised or returned by the
sources.  Each constructor corresponds to one `raise`/`Err(...)` site. -/
inductive PyErr where
  /-- `IndexError("Start offset out of range")` in `_parse_step`. -/
  | indexError
  /-- `EOFError("No more expressions")` in `_parse_step`. -/
  | eofError
  /-- `ValueError("Unmatched braces from {offset}")` in `_parse_step`. -/
  | unmatchedBraces (offset : Nat)
  /-- `ValueError(f"duplicated variable name: {name}")` in `DependencyResolver.add`. -/
  | duplicateName (name : String)
  /-- `ValueError(f"unbound variables: {invalid_names}")` in `DependencyResolver.resolve`. -/
  | unboundVariables (names : List String)
  /-- `networkx.NetworkXUnfeasible`, raised by `nx.topological_sort` with the
  generic message "Graph contains a cycle or graph changed during iteration";
  it carries no information about the cycle's members. -/
  | networkXUnfeasible
  /-- `RuntimeError("failed to resolve dependencies", err)` in `DependencyResolver.eval`. -/
  | resolveFailed (cause : PyErr)
  /-- `RuntimeError(f"failed to evaluate variable `{name}`", err)` in `DependencyResolver.eval`. -/
  | evalVarFailed (name : String) (cause : PyErr)
  /-- `ValueError(f"failed to verify value: {name}", e)` wrapping in
  `LiteralVariable.load` / `PathVariable.load`. -/
  | verifyFailed (name : String) (cause : PyErr)
  /-- `ValueError("Empty AST body")` in `LazyExpr.__init__`. -/
  | emptyBody
  /-- `ValueError("Last statement is not an expression")` in `LazyExpr.__init__`. -/
  | lastNotExpr
  /-- `ValueError(f"Invalid import statement {dump}")` in `ImportValidator.generic_visit`. -/
  | invalidImport
  /-- `TypeError` raised by the `UnboundVariableFinder` visitor
  (assignment / class definition / function definition not allowed). -/
  | disallowedConstruct (what : String)
  /-- `NameError` at evaluation time: an identifier is neither in the
  evaluation environment nor a Python builtin. -/
  | nameError (id : String)
  /-- `TypeError`/`ZeroDivisionError` and similar runtime evaluation failures. -/
  | evalError (msg : String)
  /-- `ValueError(f"Invalid formatter type ...")` in `_common_eval_formatter`. -/
  | invalidFormatter
  /-- `ValueError("failed to validate with verifier")` in `_common_verify_impl`. -/
  | verifierRejected
  /-- `typeguard.TypeCheckError` from `check_type` against a declared type. -/
  | typeMismatch
  /-- `ValueError("No match found")` in `PathVariable._load_unchecked`. -/
  | noMatch
  /-- `JsonPathParserError` surfaced by `PathVariable._load_unchecked`. -/
  | invalidPath
  /-- `AttributeError` raised when Python attribute lookup fails
  (e.g. reading the pydantic field `table` on the class `ParseResult`). -/
  | attributeError (attr : String)
  /-- `ValueError("no variables provided")` in `unmarshal_template`. -/
  | noVariables
  /-- `ValueError("Invalid variable type")` in `unmarshal_variable`. -/
  | invalidVariable
  /-- `ValueError(f"Data source {source_name} not found")` in `unmarshal_variable`. -/
  | sourceNotFound (name : String)
  /-- `ValueError("Unknown content type")` in `unmarshal_content`. -/
  | unknownContent
  /-- `ValueError("Invalid interpolation for ... Expected exactly one expression")`
  in `_common_extract_for_column`. -/
  | expectedSingleExpression (column : String)
  /-- `ValueError("Failed to parse some expressions", ...)` in `_common_extract_for_column`. -/
  | columnParseFailed
  /-- Fuel exhaustion of the embedded `parse` loop / Kahn loop.  The source
  loops terminate on every input (their measure strictly decreases); this
  constructor is never produced by the runs proved about below. -/
  | outOfFuel
deriving DecidableEq, Repr

/-! ## Extractor — `src/app/template/dependency/extractor.py` -/

/-- 2^32, the modulus of the 32-bit arithmetic in xxhash. -/
def M32 : Nat := 4294967296

/-- xxhash-32 prime 1. -/
def XXP1 : Nat := 2654435761
/-- xxhash-32 prime 2. -/
def XXP2 : Nat := 2246822519
/-- xxhash-32 prime 3. -/
def XXP3 : Nat := 3266489917
/-- xxhash-32 prime 4. -/
def XXP4 : Nat := 668265263
/-- xxhash-32 prime 5. -/
def XXP5 : Nat := 374761393

/-- 32-bit left rotation. -/
def rotl32 (x r : Nat) : Nat :=
  ((x <<< r) % M32) ||| (x >>> (32 - r))

/-- 32-bit addition. -/
def add32 (a b : Nat) : Nat := (a + b) % M32

/-- 32-bit multiplication. -/
def mul32 (a b : Nat) : Nat := (a * b) % M32

/-- A little-endian 32-bit lane from four bytes. -/
def lane32 (b0 b1 b2 b3 : Nat) : Nat :=
  b0 + b1 * 256 + b2 * 65536 + b3 * 16777216

/-- One accumulator round of xxhash-32. -/
def xxhRound (acc lane : Nat) : Nat :=
  mul32 (rotl32 (add32 acc (mul32 lane XXP2)) 13) XXP1

/-- Process the 16-byte stripes of the input. -/
def xxhStripes : List Nat → Nat → Nat → Nat → Nat → (Nat × Nat × Nat × Nat × List Nat)
  | b0 :: b1 :: b2 :: b3 :: b4 :: b5 :: b6 :: b7 ::
    b8 :: b9 :: b10 :: b11 :: b12 :: b13 :: b14 :: b15 :: rest, v1, v2, v3, v4 =>
    xxhStripes rest
      (xxhRound v1 (lane32 b0 b1 b2 b3))
      (xxhRound v2 (lane32 b4 b5 b6 b7))
      (xxhRound v3 (lane32 b8 b9 b10 b11))
      (xxhRound v4 (lane32 b12 b13 b14 b15))
  | bs, v1, v2, v3, v4 => (v1, v2, v3, v4, bs)

/-- Process the remaining 4-byte words of the tail. -/
def xxhTail4 : List Nat → Nat → (Nat × List Nat)
  | b0 :: b1 :: b2 :: b3 :: rest, h =>
    xxhTail4 rest (mul32 (rotl32 (add32 h (mul32 (lane32 b0 b1 b2 b3) XXP3)) 17) XXP4)
  | bs, h => (h, bs)

/-- Process the remaining single bytes of the tail. -/
def xxhTail1 : List Nat → Nat → Nat
  | [], h => h
  | b :: rest, h => xxhTail1 rest (mul32 (rotl32 (add32 h (mul32 b XXP5)) 11) XXP1)

/-- Final avalanche of xxhash-32. -/
def xxhAvalanche (h : Nat) : Nat :=
  let h := (h ^^^ (h >>> 15)) % M32
  let h := mul32 h XXP2
  let h := (h ^^^ (h >>> 13)) % M32
  let h := mul32 h XXP3
  (h ^^^ (h >>> 16)) % M32

/-- The xxhash-32 checksum of a byte string (seed 0), as used by
`xxhash.xxh32()` in `_parse_step`. -/
def xxh32 (input : List Nat) : Nat :=
  let len := input.length
  let seed := 0
  let (h, rest) :=
    if 16 ≤ len then
      let (v1, v2, v3, v4, rest) :=
        xxhStripes input (add32 seed (add32 XXP1 XXP2)) (add32 seed XXP2) seed
          ((seed + M32 - XXP4) % M32)
      (add32 (add32 (rotl32 v1 1) (rotl32 v2 7)) (add32 (rotl32 v3 12) (rotl32 v4 18)), rest)
    else
      (add32 seed XXP5, input)
  let h := add32 h len
  let (h, rest) := xxhTail4 rest h
  xxhAvalanche (xxhTail1 rest h)

/-- One lowercase hexadecimal digit. -/
def hexDigit (n : Nat) : Char :=
  if n < 10 then Char.ofNat (48 + n) else Char.ofNat (87 + n)

/-- A 32-bit value printed as exactly eight lowercase hex digits, as
`xxhash`'s `hexdigest()` renders the checksum (the source then takes `[:8]`,
which is the identity on an 8-character string). -/
def toHex8 (n : Nat) : List Char :=
  [hexDigit ((n >>> 28) % 16), hexDigit ((n >>> 24) % 16), hexDigit ((n >>> 20) % 16),
   hexDigit ((n >>> 16) % 16), hexDigit ((n >>> 12) % 16), hexDigit ((n >>> 8) % 16),
   hexDigit ((n >>> 4) % 16), hexDigit (n % 16)]

/-- UTF-8 encoding of one character, as `str.encode("utf-8")` produces it. -/
def utf8Encode (c : Char) : List Nat :=
  let n := c.toNat
  if n < 128 then [n]
  else if n < 2048 then [192 ||| (n >>> 6), 128 ||| (n &&& 63)]
  else if n < 65536 then
    [224 ||| (n >>> 12), 128 ||| ((n >>> 6) &&& 63), 128 ||| (n &&& 63)]
  else
    [240 ||| (n >>> 18), 128 ||| ((n >>> 12) &&& 63), 128 ||| ((n >>> 6) &&& 63),
     128 ||| (n &&& 63)]

/-- The four bytes of `s_offset.to_bytes(4, byteorder="big")`. -/
def offsetBytes (n : Nat) : List Nat :=
  [(n >>> 24) % 256, (n >>> 16) % 256, (n >>> 8) % 256, n % 256]

/-- The 8-hex-digit token of `_parse_step`: xxhash-32 updated with the
big-endian offset, then the UTF-8 bytes of the expression. -/
def tokenDigest (sOffset : Nat) (expr : List Char) : List Char :=
  toHex8 (xxh32 (offsetBytes sOffset ++ expr.flatMap utf8Encode))

/-- Result record of `_parse_step` (class `ParseStepResult`). -/
structure ParseStepResult where
  text : List Char
  offset : Nat
  hash : List Char
  expr : List Char

/-- Result record of `parse` (class `ParseResult`). -/
structure ParseResult where
  text : List Char
  table : List (List Char × List Char)

/-- The scan for `$` immediately followed by `{` in the `for i, char in
enumerate(sub)` loop of `_parse_step`: the index of the first such `$`,
`none` when the loop falls through. -/
def findDollar : List Char → Option Nat
  | [] => none
  | '$' :: '{' :: _ => some 0
  | _ :: rest => (findDollar rest).map (· + 1)

/-- The nested-brace `while` loop of `_parse_step`: starting just after the
opening brace, increment the counter on `{`, decrement on `}`; returns the
distance to the first `}` seen with the counter at zero, `none` when the
text ends first (unmatched braces). -/
def braceScan : List Char → Nat → Option Nat
  | [], _ => none
  | '{' :: rest, nested => (braceScan rest (nested + 1)).map (· + 1)
  | '}' :: rest, nested =>
    if nested = 0 then some 0 else (braceScan rest (nested - 1)).map (· + 1)
  | _ :: rest, nested => (braceScan rest nested).map (· + 1)

/-- Translation of `_parse_step(text, start_offset)`. -/
def parseStep (text : List Char) (startOffset : Nat) : Except PyErr ParseStepResult :=
  if text.length ≤ startOffset then .error .indexError
  else
    let sub := text.drop startOffset
    match findDollar sub with
    | none => .error .eofError
    | some i =>
      let start := i + 2
      match braceScan (sub.drop start) 0 with
      | none => .error (.unmatchedBraces (startOffset + start))
      | some k =>
        let expr := (sub.drop start).take k
        let sOffset := startOffset + start - 2
        let digest := tokenDigest sOffset expr
        let eOffset := startOffset + start + k + 1
        let newText := text.take sOffset ++ digest ++ text.drop eOffset
        .ok ⟨newText, sOffset + digest.length, digest, expr⟩

/-- The `while True` loop of `parse`.  The loop terminates on every input
because the remaining suffix `text.length - offset` strictly shrinks; fuel
bounds the iteration count and is chosen large enough that `.error .outOfFuel`
is never reached in any run proved about below. -/
def parseLoop : Nat → List Char → Nat → List (List Char × List Char) →
    Except PyErr ParseResult
  | 0, _, _, _ => .error .outOfFuel
  | fuel + 1, text, offset, table =>
    match parseStep text offset with
    | .error .eofError => .ok ⟨text, table⟩
    | .error e => .error e
    | .ok r => parseLoop fuel r.text r.offset (table ++ [(r.hash, r.expr)])

/-- Translation of `parse(text)` from the extractor. -/
def extractorParse (text : List Char) : Except PyErr ParseResult :=
  parseLoop (text.length + 1) text 0 []

/-! ## Expression syntax trees

The sources rely on Python's `ast` module.  The fragment below covers the
constructs exercised by the specification's scenarios and properties:
literals, names, binary operators, calls, lambdas, comprehensions with a
single generator, walrus expressions, and the statement forms that the
`LazyExpr` constructor and the two visitors dispatch on. -/

/-- Binary operators (`ast.BinOp.op`). -/
inductive BinOpA where
  | add | sub | mul | div
deriving DecidableEq, Repr

/-- Python expression nodes (`ast.expr`).  Comprehension targets are kept as
the list of plain names that `visit_GeneratorExp` reads off `gen.target`
(`elts` of a Tuple, or the single Name). -/
inductive PyExpr where
  | intLit (n : Int)
  | floatLit (q : ℚ)
  | strLit (s : String)
  | name (id : String)
  | binop (op : BinOpA) (l r : PyExpr)
  | call (f : PyExpr) (args : List PyExpr)
  | lam (params : List String) (body : PyExpr)
  | genExp (elt : PyExpr) (target : List String) (iter : PyExpr)
  | listComp (elt : PyExpr) (target : List String) (iter : PyExpr)
  | setComp (elt : PyExpr) (target : List String) (iter : PyExpr)
  | namedExpr (target : String) (value : PyExpr)

/-- Python statement nodes (`ast.stmt`) dispatched on by the sources. -/
inductive PyStmt where
  | assign (target : String) (value : PyExpr)
  | classDef (nm : String)
  | funcDef (nm : String) (body : List PyStmt)
  | ret (value : PyExpr)
  | exprStmt (value : PyExpr)
  | importStmt (aliases : List (String × Option String))
  | importFrom (module : String) (aliases : List (String × Option String))

/-! ## Visitors — `src/app/template/variable/visitor.py` -/

/-- `UnboundVariableFinder.MAGIC_FN_NAME`. -/
def MAGIC_FN_NAME : String := "__lazy_expr"

/-- Insertion into the finder's string sets.  Python's `set` has no
deterministic iteration order; insertion-ordered duplicate-free lists are the
deterministic refinement used throughout, and the theorems below that depend
on set contents compare them as sets. -/
def setAdd (s : List String) (x : String) : List String :=
  if x ∈ s then s else s ++ [x]

/-- Mutable state of `UnboundVariableFinder`. -/
structure FinderState where
  imports : List String := []
  assigned : List String := []
  unbound : List String := []
  target : Option String := .none
deriving Repr

/-- The alias name recorded by `visit_Import`: `alias.asname if alias.asname
else alias.name`. -/
def aliasName (a : String × Option String) : String :=
  a.2.getD a.1

mutual

/-- One `UnboundVariableFinder.visit(...)` dispatch on an expression node.
Expression nodes never raise: the visitor's `raise` sites are all statement
handlers.  Field order follows `ast.NodeVisitor.generic_visit`, which walks
the node's fields in declaration order. -/
def visitExpr (st : FinderState) : PyExpr → FinderState
  | .intLit _ | .floatLit _ | .strLit _ => st
  -- visit_Name: only `Load`-context names are recorded; names in Store
  -- context (assignment / comprehension targets) are skipped.
  | .name id =>
    if id ∈ st.assigned then st else { st with unbound := setAdd st.unbound id }
  | .binop _ l r => visitExpr (visitExpr st l) r
  | .call f args => visitExprList (visitExpr st f) args
  -- visit_Lambda: every parameter is added to `assigned`, then children are
  -- visited.
  | .lam params body =>
    visitExpr { st with assigned := params.foldl setAdd st.assigned } body
  -- visit_GeneratorExp: only this comprehension form has a handler; the
  -- generator targets are added to `assigned` before the children (elt, then
  -- the generator's iter) are visited.
  | .genExp elt target iter =>
    let st := { st with assigned := target.foldl setAdd st.assigned }
    visitExpr (visitExpr st elt) iter
  -- ListComp and SetComp have no handler: generic_visit walks elt then the
  -- generators, with the Store-context target names skipped by visit_Name
  -- and WITHOUT being added to `assigned`.
  | .listComp elt _ iter => visitExpr (visitExpr st elt) iter
  | .setComp elt _ iter => visitExpr (visitExpr st elt) iter
  -- visit_NamedExpr: record the walrus target, then visit children (the
  -- Store-context target is skipped by visit_Name).
  | .namedExpr t v => visitExpr { st with target := some t } v

/-- Visit a list of expression nodes in order. -/
def visitExprList (st : FinderState) : List PyExpr → FinderState
  | [] => st
  | e :: es => visitExprList (visitExpr st e) es

end

mutual

/-- One `UnboundVariableFinder.visit(...)` dispatch on a statement node. -/
def visitStmt (st : FinderState) : PyStmt → Except PyErr FinderState
  | .assign _ _ => .error (.disallowedConstruct "Assignment is not allowed")
  | .classDef _ => .error (.disallowedConstruct "Class definition is not allowed")
  | .funcDef nm body =>
    if nm = MAGIC_FN_NAME then visitStmtList st body
    else .error (.disallowedConstruct "Function definition is not allowed")
  | .ret e => .ok (visitExpr st e)
  | .exprStmt e => .ok (visitExpr st e)
  | .importStmt aliases =>
    .ok { st with imports := (aliases.map aliasName).foldl setAdd st.imports }
  | .importFrom _ aliases =>
    .ok { st with imports := (aliases.map aliasName).foldl setAdd st.imports }

/-- Visit a list of statement nodes in order (the module body). -/
def visitStmtList (st : FinderState) : List PyStmt → Except PyErr FinderState
  | [] => .ok st
  | s :: ss =>
    match visitStmt st s with
    | .error e => .error e
    | .ok st' => visitStmtList st' ss

end

/-- The value of `set(dir(__builtins__))` inside the module
`app.template.variable.visitor`.  In every module except `__main__`, CPython
binds `__builtins__` to the `builtins` module's namespace DICTIONARY, so
`dir(__builtins__)` lists the attributes of a `dict` object — the dict method
names and dunders — and NOT the builtin functions (`len`, `sum`, `range`, …).
This is the set the finder subtracts as "builtins". -/
def dictDirNames : List String :=
  ["__class__", "__class_getitem__", "__contains__", "__delattr__", "__delitem__",
   "__dir__", "__doc__", "__eq__", "__format__", "__ge__", "__getattribute__",
   "__getitem__", "__getstate__", "__gt__", "__hash__", "__init__",
   "__init_subclass__", "__ior__", "__iter__", "__le__", "__len__", "__lt__",
   "__ne__", "__new__", "__or__", "__reduce__", "__reduce_ex__", "__repr__",
   "__reversed__", "__ror__", "__setattr__", "__setitem__", "__sizeof__",
   "__str__", "__subclasshook__", "clear", "copy", "fromkeys", "get", "items",
   "keys", "pop", "popitem", "setdefault", "update", "values"]

/-- Names actually provided by Python's `builtins` module (the subset relevant
to the identifiers appearing in this development).  The finder INTENDS to
subtract these but, per `dictDirNames`, does not. -/
def pythonBuiltinNames : List String :=
  ["len", "sum", "range", "min", "max", "abs", "map", "filter", "list", "dict",
   "set", "tuple", "int", "float", "str", "bool", "print", "sorted", "zip",
   "enumerate", "all", "any", "round"]

/-- The `unbound` property of `UnboundVariableFinder`:
`self._unbound - self._imports - set(dir(__builtins__))`. -/
def finderUnbound (st : FinderState) : List String :=
  st.unbound.filter (fun x => !(st.imports.contains x) && !(dictDirNames.contains x))

/-- `ImportValidator`: accepts a module consisting solely of import
statements (and their aliases); any other node raises
`ValueError("Invalid import statement ...")`. -/
def validateImports : List PyStmt → Except PyErr Unit
  | [] => .ok ()
  | .importStmt _ :: rest => validateImports rest
  | .importFrom _ _ :: rest => validateImports rest
  | _ => .error .invalidImport

/-! ## LazyExpr — `src/app/template/variable/expr.py` -/

/-- The data computed by `LazyExpr.__init__`: the synthesized module
(`prelude` followed by `def __lazy_expr(): return <last-expr>`), the finder's
state after walking that module, and whether the "Multiple expressions in the
body" warning was emitted.  Note that when the raw body has several
statements, only the LAST one's value is placed in the synthesized module;
the earlier statements are discarded (after a non-fatal warning) and are
never seen by the finder. -/
structure LazyExpr where
  synthesized : List PyStmt
  finder : FinderState
  multiWarning : Bool

/-- Translation of `LazyExpr.__init__(raw, imports)`.  `imports` is the
parsed prelude, `raw` the parsed body of the expression source. -/
def lazyExprInit (imports : List PyStmt) (raw : List PyStmt) : Except PyErr LazyExpr :=
  match validateImports imports with
  | .error e => .error e
  | .ok _ =>
    match raw.getLast? with
    | .none => .error .emptyBody
    | some (.exprStmt e) =>
      let synth := imports ++ [.funcDef MAGIC_FN_NAME [.ret e]]
      match visitStmtList {} synth with
      | .error err => .error err
      | .ok st => .ok ⟨synth, st, 1 < raw.length⟩
    | some _ => .error .lastNotExpr

/-- The `unbound` property of `LazyExpr`. -/
def LazyExpr.unbound (l : LazyExpr) : List String :=
  finderUnbound l.finder

/-- The `solely_dependency` property of `LazyExpr` reads
`self._finder.solely_dependency`, but `UnboundVariableFinder` (in
`src/app/template/variable/visitor.py`) defines no such attribute or
property, so the access raises `AttributeError`. -/
def LazyExpr.solelyDependency (_ : LazyExpr) : Except PyErr (Option String) :=
  .error (.attributeError "solely_dependency")

/-! ## Runtime values and evaluation — `LazyExpr.eval`

`LazyExpr.eval(env)` in the source `exec`s the compiled synthesized module in
a fresh dictionary, overlays the caller environment, and calls
`__lazy_expr()`.  A name in the body therefore resolves to the caller
environment first (it overlays the module bindings) and falls back to
Python's real builtins (function globals always chain to `builtins`).
Division is Python true division; it is modelled exactly over rationals,
which agrees with IEEE floats on every value arising in this development
(no theorem below evaluates a division at all). -/

/-- Runtime values. -/
inductive Value where
  | int (n : Int)
  | float (q : ℚ)
  | str (s : String)
  | bool (b : Bool)
  | none
  | list (xs : List Value)
  | dict (fields : List (String × Value))
  /-- A lambda with its captured defining environment. -/
  | closure (params : List String) (body : PyExpr) (env : List (String × Value))
  /-- A function from Python's `builtins` module. -/
  | builtinFn (nm : String)

/-- A Python dictionary with string keys, insertion-ordered. -/
def PyDict := List (String × Value)

/-- `d[k] = v` on a Python dict: replace in place, else append. -/
def dictSet : PyDict → String → Value → PyDict
  | [], k, v => [(k, v)]
  | (k', v') :: rest, k, v =>
    if k' = k then (k', v) :: rest else (k', v') :: dictSet rest k v

mutual

/-- Structural equality test on values (Python `==` restricted to the value
forms above; functions compare unequal unless identical in structure). -/
def valueBeq : Value → Value → Bool
  | .int a, .int b => a == b
  | .float a, .float b => a == b
  | .int a, .float b => (a : ℚ) == b
  | .float a, .int b => a == (b : ℚ)
  | .str a, .str b => a == b
  | .bool a, .bool b => a == b
  | .none, .none => true
  | .list a, .list b => valueListBeq a b
  | .dict a, .dict b => valueFieldsBeq a b
  | _, _ => false

/-- Pointwise equality of value lists. -/
def valueListBeq : List Value → List Value → Bool
  | [], [] => true
  | a :: as', b :: bs' => valueBeq a b && valueListBeq as' bs'
  | _, _ => false

/-- Pointwise equality of keyed value lists. -/
def valueFieldsBeq : List (String × Value) → List (String × Value) → Bool
  | [], [] => true
  | (k, a) :: as', (k', b) :: bs' => k == k' && valueBeq a b && valueFieldsBeq as' bs'
  | _, _ => false

end

/-- Application of a binary operator (the Python semantics restricted to the
value forms above). -/
def binOpApply : BinOpA → Value → Value → Except PyErr Value
  | .add, .int a, .int b => .ok (.int (a + b))
  | .add, .float a, .float b => .ok (.float (a + b))
  | .add, .int a, .float b => .ok (.float (a + b))
  | .add, .float a, .int b => .ok (.float (a + b))
  | .add, .str a, .str b => .ok (.str (a ++ b))
  | .add, .list a, .list b => .ok (.list (a ++ b))
  | .sub, .int a, .int b => .ok (.int (a - b))
  | .sub, .float a, .float b => .ok (.float (a - b))
  | .sub, .int a, .float b => .ok (.float (a - b))
  | .sub, .float a, .int b => .ok (.float (a - b))
  | .mul, .int a, .int b => .ok (.int (a * b))
  | .mul, .float a, .float b => .ok (.float (a * b))
  | .mul, .int a, .float b => .ok (.float (a * b))
  | .mul, .float a, .int b => .ok (.float (a * b))
  | .div, .int a, .int b =>
    if b = 0 then .error (.evalError "division by zero")
    else .ok (.float ((a : ℚ) / (b : ℚ)))
  | .div, .float a, .float b =>
    if b = 0 then .error (.evalError "division by zero") else .ok (.float (a / b))
  | .div, .int a, .float b =>
    if b = 0 then .error (.evalError "division by zero") else .ok (.float (a / b))
  | .div, .float a, .int b =>
    if b = 0 then .error (.evalError "division by zero") else .ok (.float (a / (b : ℚ)))
  | _, _, _ => .error (.evalError "unsupported operand type")

/-- Sum of a list of numbers (`sum` builtin). -/
def sumValues : List Value → Except PyErr Value
  | [] => .ok (.int 0)
  | v :: vs => do
    let rest ← sumValues vs
    binOpApply .add v rest

/-- Application of the modelled builtins. -/
def applyBuiltin (nm : String) (args : List Value) : Except PyErr Value :=
  match nm, args with
  | "sum", [.list xs] => sumValues xs
  | "len", [.list xs] => .ok (.int xs.length)
  | "len", [.str s] => .ok (.int s.length)
  | "range", [.int n] => .ok (.list ((List.range n.toNat).map (fun i => .int i)))
  | _, _ => .error (.evalError "builtin not modelled")

/-- Bind parameters to arguments for a lambda call. -/
def bindParams (env : PyDict) : List String → List Value → Except PyErr PyDict
  | [], [] => .ok env
  | p :: ps, v :: vs => bindParams (dictSet env p v) ps vs
  | _, _ => .error (.evalError "wrong number of arguments")

/-- The elements Python iterates over for a value. -/
def iterElems : Value → Except PyErr (List Value)
  | .list xs => .ok xs
  | .str s => .ok (s.toList.map (fun c => .str (String.mk [c])))
  | _ => .error (.evalError "not iterable")

/-- Deduplicate preserving first occurrences (Python `set` construction,
modelled as its insertion-ordered list refinement). -/
def dedupValues : List Value → List Value
  | [] => []
  | v :: vs => v :: (dedupValues vs).filter (fun w => !valueBeq v w)

mutual

/-- Evaluation of an expression node against an environment:
`__lazy_expr()`'s `return` expression evaluated under the `exec` dictionary
overlaid with `env`.  Fuel models Python's recursion limit (a
`RecursionError` when exhausted); no run proved about below approaches it. -/
def evalExpr : Nat → PyDict → PyExpr → Except PyErr Value
  | 0, _, _ => .error (.evalError "maximum recursion depth exceeded")
  | fuel + 1, env, e =>
    match e with
    | .intLit n => .ok (.int n)
    | .floatLit q => .ok (.float q)
    | .strLit s => .ok (.str s)
    | .name id =>
      match List.lookup id env with
      | some v => .ok v
      | .none =>
        if pythonBuiltinNames.contains id then .ok (.builtinFn id)
        else .error (.nameError id)
    | .binop op l r => do
      let vl ← evalExpr fuel env l
      let vr ← evalExpr fuel env r
      binOpApply op vl vr
    | .call f args => do
      let vf ← evalExpr fuel env f
      let vargs ← evalExprList fuel env args
      match vf with
      | .closure params body cenv => do
        let env' ← bindParams cenv params vargs
        evalExpr fuel env' body
      | .builtinFn nm => applyBuiltin nm vargs
      | _ => .error (.evalError "object is not callable")
    | .lam params body => .ok (.closure params body env)
    | .genExp elt target iter => evalComp fuel env elt target iter
    | .listComp elt target iter => evalComp fuel env elt target iter
    | .setComp elt target iter => do
      let xs ← evalComp fuel env elt target iter
      match xs with
      | .list ys => .ok (.list (dedupValues ys))
      | v => .ok v
    -- A walrus also binds its target in the enclosing scope; no theorem
    -- below evaluates a walrus, so the binding side effect is not modelled.
    | .namedExpr _ v => evalExpr fuel env v

/-- Evaluate a list of argument expressions left to right. -/
def evalExprList : Nat → PyDict → List PyExpr → Except PyErr (List Value)
  | 0, _, _ => .error (.evalError "maximum recursion depth exceeded")
  | _, _, [] => .ok []
  | fuel + 1, env, e :: es => do
    let v ← evalExpr fuel env e
    let vs ← evalExprList fuel env es
    .ok (v :: vs)

/-- Evaluate a single-generator comprehension to the list of element
values. -/
def evalComp (fuel : Nat) (env : PyDict) (elt : PyExpr) (target : List String)
    (iter : PyExpr) : Except PyErr Value :=
  match fuel with
  | 0 => .error (.evalError "maximum recursion depth exceeded")
  | fuel + 1 => do
    let vi ← evalExpr fuel env iter
    let xs ← iterElems vi
    let ys ← evalCompElems fuel env elt target xs
    .ok (.list ys)

/-- Evaluate the comprehension element for each iterated value. -/
def evalCompElems : Nat → PyDict → PyExpr → List String → List Value →
    Except PyErr (List Value)
  | 0, _, _, _, _ => .error (.evalError "maximum recursion depth exceeded")
  | _, _, _, _, [] => .ok []
  | fuel + 1, env, elt, target, x :: xs => do
    let env' ←
      match target, x with
      | [t], _ => .ok (dictSet env t x)
      | ts, .list vs => bindParams env ts vs
      | _, _ => .error (.evalError "cannot unpack")
    let y ← evalExpr fuel env' elt
    let ys ← evalCompElems fuel env elt target xs
    .ok (y :: ys)

end

/-- The fuel handed to one `LazyExpr.eval` call; far beyond the recursion
depth of any expression in this development. -/
def EVAL_FUEL : Nat := 1000

/-- Translation of `LazyExpr.eval(env, is_type_check)`.  The exec dictionary
holds the prelude's import bindings; the claims' scenarios all carry an
empty prelude, so the initial dictionary is the caller's `env`.  With the
default `is_type_check=True` the source calls `check_type(val, T)` against
the UNBOUND type variable `T`, which typeguard accepts for every value, so
the check has no effect for the untyped variables modelled here. -/
def LazyExpr.eval (l : LazyExpr) (env : PyDict) : Except PyErr Value :=
  match l.synthesized.getLast? with
  | some (.funcDef _ [.ret e]) => evalExpr EVAL_FUEL env e
  | _ => .error (.evalError "no entry function")

/-! ## Variable model — `src/app/template/variable/model.py` -/

/-- Expected-type declarations (`TypeLike`); the scenarios of the claims all
leave it unset. -/
inductive PyType where
  | int | float | str | bool | list
deriving DecidableEq, Repr

/-- Python `isinstance`-style check against a declared expected type
(`typeguard.check_type`). -/
def checkType (v : Value) : PyType → Bool
  | .int => match v with | .int _ => true | _ => false
  | .float => match v with | .float _ => true | _ => false
  | .str => match v with | .str _ => true | _ => false
  | .bool => match v with | .bool _ => true | _ => false
  | .list => match v with | .list _ => true | _ => false

/-- Python truthiness, as used by `if not validate_with_verifier(val)`. -/
def truthy : Value → Bool
  | .bool b => b
  | .int n => n != 0
  | .float q => q != 0
  | .str s => s.length != 0
  | .none => false
  | .list xs => !xs.isEmpty
  | .dict fs => !fs.isEmpty
  | _ => true

/-- `LazyExpr.__call__(*args, env=env)`: evaluate the expression to a value,
require it to be callable, and apply it to the arguments. -/
def callLazy (l : LazyExpr) (env : PyDict) (args : List Value) : Except PyErr Value := do
  let f ← l.eval env
  match f with
  | .closure ps body cenv => do
    let env' ← bindParams cenv ps args
    evalExpr EVAL_FUEL env' body
  | .builtinFn nm => applyBuiltin nm args
  | _ => .error (.evalError "Not a callable")

/-- `_common_preprocess_impl`: apply the optional preprocessor to the value;
call failures are captured as `Err`. -/
def commonPreprocess (val : Value) (preprocessor : Option LazyExpr) (env : PyDict) :
    Except PyErr Value :=
  match preprocessor with
  | .none => .ok val
  | some p => callLazy p env [val]

/-- `_common_verify_impl`: run the optional verifier (a falsy return is
`ValueError("failed to validate with verifier")`), then check the declared
type if any.  Exceptions escaping the verifier call are folded into the
error result. -/
def commonVerify (val : Value) (verifier : Option LazyExpr) (t : Option PyType)
    (env : PyDict) : Except PyErr Value := do
  let ok ←
    match verifier with
    | .none => pure true
    | some v => do
      let r ← callLazy v env [val]
      pure (truthy r)
  if !ok then .error .verifierRejected
  else
    match t with
    | .none => .ok val
    | some ty => if checkType val ty then .ok val else .error .typeMismatch

/-- `_common_eval_formatter`: evaluate the optional formatter expression and
require the result to be callable (`ValueError` otherwise). -/
def commonEvalFormatter (formatter : Option LazyExpr) (env : PyDict) :
    Except PyErr (Option Value) :=
  match formatter with
  | .none => .ok .none
  | some f => do
    let v ← f.eval env
    match v with
    | .closure _ _ _ => .ok (some v)
    | .builtinFn _ => .ok (some v)
    | _ => .error .invalidFormatter

/-- The `IVariable` protocol: the capability set the resolver consumes. -/
structure IVariable where
  name : String
  unbound : List String
  load : PyDict → Except PyErr Value
  evalFormatter : PyDict → Except PyErr (Option Value)

/-- `LiteralVariable` (its fields after the pydantic before-validator has
parsed the expression strings into `LazyExpr`s). -/
structure LiteralVariable where
  name : String
  expr : LazyExpr
  formatter : Option LazyExpr := .none
  t : Option PyType := .none

/-- `LiteralVariable.unbound`. -/
def LiteralVariable.unbound (v : LiteralVariable) : List String :=
  v.expr.unbound

/-- `LiteralVariable.load(env)`: `_load_unchecked` (evaluate the expression)
chained with `_common_verify_impl`; every error is wrapped as
`ValueError(f"failed to verify value: {name}", e)`. -/
def LiteralVariable.load (v : LiteralVariable) (env : PyDict) : Except PyErr Value :=
  let r : Except PyErr Value := do
    let val ← v.expr.eval env
    commonVerify val .none v.t env
  match r with
  | .ok val => .ok val
  | .error e => .error (.verifyFailed v.name e)

/-- The capability record of a `LiteralVariable`. -/
def LiteralVariable.toIVariable (v : LiteralVariable) : IVariable :=
  { name := v.name
    unbound := v.unbound
    load := v.load
    evalFormatter := fun env => commonEvalFormatter v.formatter env }

/-! JSON data and JSONPath extraction for `PathVariable`. -/

/-- JSON values, the shape of a materialized data source. -/
inductive JsonVal where
  | num (n : Int)
  | str (s : String)
  | bool (b : Bool)
  | null
  | arr (xs : List JsonVal)
  | obj (fields : List (String × JsonVal))

/-- A parsed JSONPath of the `$.a.b[*].c` form: field accesses and the `[*]`
wildcard. -/
inductive PathSeg where
  | field (f : String)
  | wildcard

/-- Modelled from the spec: JSONPath evaluation is the external
`jsonpath_ng` collaborator (`parse(path).find(data)`), described in the
specification as the `pathQuery` boundary; `find` returns all matches in
document order, and `PathVariable._load_unchecked` then takes
`match[0].value`, the first match. -/
def jsonFind : List PathSeg → JsonVal → List JsonVal
  | [], v => [v]
  | .field f :: rest, .obj fields =>
    match fields.lookup f with
    | some v => jsonFind rest v
    | .none => []
  | .wildcard :: rest, .arr xs => xs.flatMap (jsonFind rest)
  | .wildcard :: rest, .obj fields => fields.flatMap (fun p => jsonFind rest p.2)
  | _, _ => []

mutual

/-- Conversion of a JSON value to the runtime value Python's jsonpath
library hands back. -/
def jsonToValue : JsonVal → Value
  | .num n => .int n
  | .str s => .str s
  | .bool b => .bool b
  | .null => .none
  | .arr xs => .list (jsonListToValue xs)
  | .obj fields => .dict (jsonFieldsToValue fields)

/-- Conversion of a JSON array's elements. -/
def jsonListToValue : List JsonVal → List Value
  | [] => []
  | x :: xs => jsonToValue x :: jsonListToValue xs

/-- Conversion of a JSON object's fields. -/
def jsonFieldsToValue : List (String × JsonVal) → List (String × Value)
  | [] => []
  | (k, x) :: xs => (k, jsonToValue x) :: jsonFieldsToValue xs

end

/-- `PathVariable` (fields after the before-validator). -/
structure PathVariable where
  name : String
  source : JsonVal
  json_path : List PathSeg
  formatter : Option LazyExpr := .none
  verifier : Option LazyExpr := .none
  preprocessor : Option LazyExpr := .none
  t : Option PyType := .none

/-- `PathVariable.unbound`: the union of the formatter's, verifier's and
preprocessor's unbound sets (in that order); the path lookup itself
contributes nothing. -/
def PathVariable.unbound (v : PathVariable) : List String :=
  let s := (v.formatter.map LazyExpr.unbound).getD []
  let s := ((v.verifier.map LazyExpr.unbound).getD []).foldl setAdd s
  ((v.preprocessor.map LazyExpr.unbound).getD []).foldl setAdd s

/-- `PathVariable._load_unchecked`: run the JSONPath query and keep
`match[0].value` — the FIRST match — or `ValueError("No match found")`. -/
def PathVariable.loadUnchecked (v : PathVariable) : Except PyErr Value :=
  match jsonFind v.json_path v.source with
  | [] => .error .noMatch
  | m :: _ => .ok (jsonToValue m)

/-- `PathVariable.load(env)`: `_load_unchecked`, then the preprocessor, then
the verifier/type check, every error wrapped as
`ValueError(f"failed to verify value: {name}", e)`. -/
def PathVariable.load (v : PathVariable) (env : PyDict) : Except PyErr Value :=
  let r : Except PyErr Value := do
    let val ← v.loadUnchecked
    let val ← commonPreprocess val v.preprocessor env
    commonVerify val v.verifier v.t env
  match r with
  | .ok val => .ok val
  | .error e => .error (.verifyFailed v.name e)

/-- The capability record of a `PathVariable`. -/
def PathVariable.toIVariable (v : PathVariable) : IVariable :=
  { name := v.name
    unbound := v.unbound
    load := v.load
    evalFormatter := fun env => commonEvalFormatter v.formatter env }

/-! ## Dependency resolver — `src/app/template/dependency/resolver.py` -/

/-- `EvaluatedVariable`. -/
structure EvaluatedVariable where
  name : String
  value : Value
  formatter : Option Value

/-- `to_env_dict(variables)`. -/
def to_env_dict (vars : List EvaluatedVariable) : PyDict :=
  vars.foldl (fun env v => dictSet env v.name v.value) []

/-- A `networkx.DiGraph` as the resolver uses it: nodes in insertion order
(Python dict order), directed edges in insertion order, duplicates ignored. -/
structure DiGraph where
  nodes : List String := []
  edges : List (String × String) := []

/-- `DiGraph.add_node`. -/
def DiGraph.addNode (g : DiGraph) (n : String) : DiGraph :=
  if n ∈ g.nodes then g else { g with nodes := g.nodes ++ [n] }

/-- `DiGraph.add_edge`: missing endpoints are inserted (source first), then
the edge. -/
def DiGraph.addEdge (g : DiGraph) (u v : String) : DiGraph :=
  let g := g.addNode u
  let g := g.addNode v
  if (u, v) ∈ g.edges then g else { g with edges := g.edges ++ [(u, v)] }

/-- The in-degree of a node (`G.in_degree`). -/
def DiGraph.inDeg (g : DiGraph) (n : String) : Nat :=
  (g.edges.filter (fun e => e.2 = n)).length

/-- The successors of a node in edge-insertion order (`G.edges(node)`). -/
def DiGraph.successors (g : DiGraph) (n : String) : List String :=
  (g.edges.filter (fun e => e.1 = n)).map (fun e => e.2)

/-- The resolver's state: the variable table in insertion order (reordered
by `resolve`) and the dependency graph. -/
structure DependencyResolver where
  table : List IVariable := []
  graph : DiGraph := {}

/-- `DependencyResolver.add(variable)`.  Here `valid_names` is consumed as a
whole (the generator is fresh for each call), so this is plain list
membership. -/
def DependencyResolver.add (r : DependencyResolver) (v : IVariable) :
    Except PyErr DependencyResolver :=
  if v.name ∈ r.table.map (fun x => x.name) then .error (.duplicateName v.name)
  else
    let g := r.graph.addNode v.name
    let g := v.unbound.foldl (fun g u => g.addEdge v.name u) g
    .ok { table := r.table ++ [v], graph := g }

/-- `DependencyResolver.add_many(variables)`: sequential, first failure
aborts. -/
def DependencyResolver.addMany (r : DependencyResolver) :
    List IVariable → Except PyErr DependencyResolver
  | [] => .ok r
  | v :: vs => do
    let r' ← r.add v
    r'.addMany vs

/-- Python's `x in it` on a live iterator: consume elements until `x` is
found.  Returns whether it was found together with the iterator's remaining
suffix. -/
def iterContains (x : String) : List String → Bool × List String
  | [] => (false, [])
  | y :: ys => if y = x then (true, ys) else iterContains x ys

/-- The `invalid_names` computation of `DependencyResolver.resolve`:
`valid_names = map(lambda x: x.name, self._table)` builds ONE lazy iterator,
and `filter(lambda x: x not in valid_names, self._graph.nodes)` tests every
graph node against that same iterator, each test consuming it further.  A
node is kept (deemed invalid) exactly when it is not found in the iterator's
remaining suffix. -/
def invalidScan : List String → List String → List String
  | [], _ => []
  | n :: ns, avail =>
    let (found, rest) := iterContains n avail
    if found then invalidScan ns rest else n :: invalidScan ns rest

/-- Decrement a child's entry of `indegree_map`, deleting it when it reaches
zero; the Bool reports the deletion (the child joined `zero_indegree`).  A
missing key would be a `KeyError` in the source; it cannot occur on the
graphs reaching this code and is a no-op here. -/
def decSucc : List (String × Nat) → String → List (String × Nat) × Bool
  | [], _ => ([], false)
  | (k, d) :: rest, c =>
    if k = c then
      if d = 1 then (rest, true) else ((k, d - 1) :: rest, false)
    else
      let (r, b) := decSucc rest c
      ((k, d) :: r, b)

/-- The `for _, child in G.edges(node)` loop body of `nx.topological_sort`:
decrement each successor, collecting (in processing order) those whose
in-degree reached zero. -/
def procChildren : List (String × Nat) → List String → List (String × Nat) × List String
  | degs, [] => (degs, [])
  | degs, c :: cs =>
    let (degs', hit) := decSucc degs c
    let (degs'', zs) := procChildren degs' cs
    (degs'', if hit then c :: zs else zs)

/-- The `while zero_indegree` loop of `nx.topological_sort`: pop the LAST
zero-in-degree node, process its successors, append the newly zero ones,
yield the node.  When the list empties, a non-empty `indegree_map` means the
graph has a cycle (`NetworkXUnfeasible`); `none` stands for that raise.
The loop yields each node at most once, so the fuel passed by `kahn` is
never exhausted on the well-formed graphs the resolver builds. -/
def kahnGo (g : DiGraph) : Nat → List String → List (String × Nat) → List String →
    Option (List String)
  | 0, _, _, _ => .none
  | fuel + 1, zero, degs, acc =>
    match zero.getLast? with
    | .none => if degs.isEmpty then some acc else .none
    | some node =>
      let zero' := zero.dropLast
      let (degs', newZeros) := procChildren degs (g.successors node)
      kahnGo g fuel (zero' ++ newZeros) degs' (acc ++ [node])

/-- `list(nx.topological_sort(G))`: Kahn's algorithm over the in-degree map,
`none` when `NetworkXUnfeasible` is raised. -/
def kahn (g : DiGraph) : Option (List String) :=
  kahnGo g (g.nodes.length + 1)
    (g.nodes.filter (fun n => g.inDeg n = 0))
    ((g.nodes.filter (fun n => g.inDeg n ≠ 0)).map (fun n => (n, g.inDeg n)))
    []

/-- Stable insertion of a variable into a list sorted by `key`. -/
def insertByKey (key : String → Nat) (v : IVariable) :
    List IVariable → List IVariable
  | [] => [v]
  | w :: ws =>
    if key v.name < key w.name then v :: w :: ws else w :: insertByKey key v ws

/-- Stable insertion sort by `key` (Python's `sorted` is a stable sort; the
keys here are distinct, so any sort produces the same list). -/
def sortVarsByKey (key : String → Nat) : List IVariable → List IVariable
  | [] => []
  | v :: vs => insertByKey key v (sortVarsByKey key vs)

/-- The position of a string in a list (first occurrence; the list's length
when absent). -/
def idxOf (x : String) : List String → Nat
  | [] => 0
  | y :: ys => if y = x then 0 else idxOf x ys + 1

/-- `DependencyResolver._sort_by_topological(variables, topological)`:
`index_map` enumerates the REVERSED topological order, and the table is
sorted by each variable's index. -/
def sortByTopological (vars : List IVariable) (topological : List String) :
    List IVariable :=
  sortVarsByKey (fun n => idxOf n topological.reverse) vars

/-- `DependencyResolver.resolve()`: the one-shot-iterator membership scan
(see `invalidScan`), then the topological sort with the table reordered, a
cycle surfacing as `NetworkXUnfeasible`. -/
def DependencyResolver.resolve (r : DependencyResolver) :
    Except PyErr DependencyResolver :=
  let invalid := invalidScan r.graph.nodes (r.table.map (fun x => x.name))
  if invalid.isEmpty then
    match kahn r.graph with
    | .none => .error .networkXUnfeasible
    | some topological => .ok { r with table := sortByTopological r.table topological }
  else .error (.unboundVariables invalid)

/-- The `eval_var` comprehension of `DependencyResolver.eval`: load each
variable in table order, PLACE ITS VALUE INTO THE MUTABLE `env` before the
next variable runs, and evaluate its formatter against the updated `env`.  A
load failure aborts with `RuntimeError(f"failed to evaluate variable ...")`;
a formatter failure propagates as raised. -/
def evalVars : List IVariable → PyDict → Except PyErr (List EvaluatedVariable)
  | [], _ => .ok []
  | v :: vs, env =>
    match v.load env with
    | .error e => .error (.evalVarFailed v.name e)
    | .ok val =>
      let env' := dictSet env v.name val
      match v.evalFormatter env' with
      | .error e => .error e
      | .ok fmt =>
        match evalVars vs env' with
        | .error e => .error e
        | .ok rest => .ok (⟨v.name, val, fmt⟩ :: rest)

/-- `DependencyResolver.eval()`: resolve (a failure raising
`RuntimeError("failed to resolve dependencies", err)`), then evaluate the
reordered table against an initially empty environment. -/
def DependencyResolver.eval (r : DependencyResolver) :
    Except PyErr (List EvaluatedVariable) :=
  match r.resolve with
  | .error e => .error (.resolveFailed e)
  | .ok r' => evalVars r'.table []

/-- `resolve_and_evaluate(variables)`: build a fresh resolver, add all
variables, evaluate; every raised exception is returned as `Err`. -/
def resolve_and_evaluate (vars : List IVariable) :
    Except PyErr (List EvaluatedVariable) := do
  let r ← DependencyResolver.addMany {} vars
  r.eval

/-! ## Content model — `src/app/template/content/__init__.py` -/

/-- Python `str.replace(pat, rep)`: replace every occurrence, scanning left
to right.  Fueled by the text length (each step consumes at least one
character when the pattern is non-empty). -/
def replaceAll : Nat → List Char → List Char → List Char → List Char
  | 0, s, _, _ => s
  | _ + 1, [], _, _ => []
  | fuel + 1, c :: rest, pat, rep =>
    if pat ≠ [] ∧ pat.isPrefixOf (c :: rest) then
      rep ++ replaceAll fuel ((c :: rest).drop pat.length) pat rep
    else c :: replaceAll fuel rest pat rep

/-- Python `str(value)` for the value forms that can reach the default
rendering path. -/
def strOfValue : Value → List Char
  | .int n => (toString n).toList
  | .str s => s.toList
  | .bool b => if b then "True".toList else "False".toList
  | .none => "None".toList
  | v => (reprStr (truthy v)).toList -- placeholder: unreachable below

/-- Apply a callable runtime value (the call semantics of `evalExpr`'s
`call` case, for an already-evaluated callee). -/
def callValue (f : Value) (args : List Value) : Except PyErr Value :=
  match f with
  | .closure ps body cenv => do
    let env' ← bindParams cenv ps args
    evalExpr EVAL_FUEL env' body
  | .builtinFn nm => applyBuiltin nm args
  | _ => .error (.evalError "object is not callable")

/-- Runtime type identity, `isinstance(val, type(dep_val))` restricted to
the value forms above (`int` and `float` are distinct types). -/
def sameRuntimeType : Value → Value → Bool
  | .int _, .int _ => true
  | .float _, .float _ => true
  | .str _, .str _ => true
  | .bool _, .bool _ => true
  | .none, .none => true
  | .list _, .list _ => true
  | .dict _, .dict _ => true
  | .closure _ _ _, .closure _ _ _ => true
  | .builtinFn _, .builtinFn _ => true
  | _, _ => false

/-- `HtmlParseResult` (pydantic model). -/
structure HtmlParseResult where
  tag : String
  text_with_hash : List Char
  exprs : List (List Char × LazyExpr)
  style : List (String × String)

/-- The `replace_exprs` loop of `HtmlParseResult.load`: evaluate each bound
expression, pick the sole dependency's formatter when the runtime types
match, and replace `#token#` in the running text.  Reading
`expr.solely_dependency` raises `AttributeError` (the finder has no such
attribute), so the loop aborts on its first expression; the remainder is the
translation of the unreachable code. -/
def htmlReplaceLoop (env : PyDict) (formatters : List (String × Value)) :
    List (List Char × LazyExpr) → List Char → Except PyErr (List Char)
  | [], text => .ok text
  | (nm, expr) :: rest, text => do
    let val ← expr.eval env
    let dep ← expr.solelyDependency
    let fmt : Option Value :=
      match dep with
      | some d =>
        match List.lookup d env with
        | some depVal =>
          if sameRuntimeType val depVal then List.lookup d formatters else .none
        | .none => .none
      | .none => .none
    let rendered ←
      match fmt with
      | some f => do
        let s ← callValue f [val]
        match s with
        | .str s => pure s.toList
        | _ => .error (.evalError "formatter result is not a string")
      | .none => pure (strOfValue val)
    let pat := '#' :: nm ++ ['#']
    htmlReplaceLoop env formatters rest (replaceAll (text.length + 1) text pat rendered)

/-- `HtmlParseResult.load(evaluated)`. -/
def HtmlParseResult.load (p : HtmlParseResult) (evaluated : List EvaluatedVariable) :
    Except PyErr (List Char) :=
  let env := to_env_dict evaluated
  let formatters := evaluated.filterMap (fun v => v.formatter.map (fun f => (v.name, f)))
  htmlReplaceLoop env formatters p.exprs p.text_with_hash

/-- An evaluated content item (the mapping returned by `eval_result`). -/
inductive ContentResult where
  | html (tag : String) (text : List Char) (style : List (String × String))
  | column (dataCols : List (String × List Value)) (typeKey : String) (typeVal : String)

/-- `HtmlParseResult.eval_result(evaluated)`. -/
def HtmlParseResult.evalResult (p : HtmlParseResult)
    (evaluated : List EvaluatedVariable) : Except PyErr ContentResult := do
  let r ← p.load evaluated
  .ok (.html p.tag r p.style)

/-- `HtmlContent` (pydantic model). -/
structure HtmlContent where
  tag : String
  content : List Char
  style : List (String × String) := []

/-- `HtmlContent.extract(imports)`: run the extractor on the content text;
on success, `establish_expr` computes `map(ex, ParseResult.table)` — reading
the field `table` on the CLASS `ParseResult` instead of the local
`parse_result` instance, which raises `AttributeError` (pydantic v2 exposes
fields only on instances).  Every successfully parsed content therefore
fails here. -/
def HtmlContent.extract (c : HtmlContent) (_imports : List PyStmt) :
    Except PyErr HtmlParseResult :=
  match extractorParse c.content with
  | .error e => .error e
  | .ok _parseResult => .error (.attributeError "table")

/-- `HtmlContent.eval_result(evaluated, imports)`: extract (re-raising its
error), then render. -/
def HtmlContent.evalResult (c : HtmlContent) (evaluated : List EvaluatedVariable)
    (imports : List PyStmt) : Except PyErr ContentResult :=
  match c.extract imports with
  | .error e => .error e
  | .ok r => r.evalResult evaluated

/-- A value of a plot/table `data` column: either a literal numeric array or
an expression string.  Python's `ast.parse` of the extracted placeholder
expression is outside the embedding, so the parse tree of the (single)
placeholder's expression accompanies the raw text. -/
inductive ColumnVal where
  | nums (xs : List Value)
  | exprStr (raw : List Char) (parsed : List PyStmt)

/-- Is a runtime value an `int` or a `float`? -/
def isNumber : Value → Bool
  | .int _ => true
  | .float _ => true
  | _ => false

/-- `ColumnParseResult` (pydantic model). -/
structure ColumnParseResult where
  literal_cols : List (String × List Value)
  lazy_cols : List (String × LazyExpr)

/-- `ColumnParseResult.load(evaluated)`: evaluate each lazy column, coerce
with `list(...)`, and `check_type` the result against `NumberArray`. -/
def ColumnParseResult.load (p : ColumnParseResult)
    (evaluated : List EvaluatedVariable) : Except PyErr (List (String × List Value)) :=
  let env := to_env_dict evaluated
  let rec go : List (String × LazyExpr) → Except PyErr (List (String × List Value))
    | [] => .ok []
    | (k, lazy) :: rest => do
      let v ← lazy.eval env
      let xs ← iterElems v
      if xs.all isNumber then do
        let tl ← go rest
        .ok ((k, xs) :: tl)
      else .error .typeMismatch
  (go p.lazy_cols).map (fun evaled => p.literal_cols ++ evaled)

/-- `ColumnLikeParseResult` and its `eval_result`. -/
structure ColumnLikeParseResult where
  column_type : String × String
  result : ColumnParseResult

/-- `ColumnLikeParseResult.eval_result(evaluated)`. -/
def ColumnLikeParseResult.evalResult (p : ColumnLikeParseResult)
    (evaluated : List EvaluatedVariable) : Except PyErr ContentResult := do
  let cols ← p.result.load evaluated
  let key := if p.column_type.1 = "plot" then "plot_type" else "table_type"
  .ok (.column cols key p.column_type.2)

/-- `_common_extract_for_column(t, items, imports)`: expression strings run
through the extractor and must yield exactly one token; any failure
aggregates into `ValueError("Failed to parse some expressions", ...)`. -/
def commonExtractForColumn (t : String × String)
    (items : List (String × ColumnVal)) (imports : List PyStmt) :
    Except PyErr ColumnLikeParseResult :=
  let literalCols := items.filterMap (fun p =>
    match p.2 with | .nums xs => some (p.1, xs) | _ => Option.none)
  let rec go : List (String × ColumnVal) → Except PyErr (List (String × LazyExpr))
    | [] => .ok []
    | (_, .nums _) :: rest => go rest
    | (k, .exprStr raw parsed) :: rest => do
      match extractorParse raw with
      | .error _ => .error .columnParseFailed
      | .ok r =>
        if r.table.length ≠ 1 then .error .columnParseFailed
        else do
          let lazy ←
            match lazyExprInit imports parsed with
            | .error _ => .error .columnParseFailed
            | .ok l => pure l
          let tl ← go rest
          .ok ((k, lazy) :: tl)
  (go items).map (fun lazyCols =>
    ⟨t, ⟨literalCols, lazyCols⟩⟩)

/-- A content entry after `unmarshal_content`'s tag dispatch (`tag`,
`plot_type` or `table_type` selects the variant; an unrecognized entry is
`ValueError("Unknown content type")`, outside this sum type). -/
inductive ContentEntry where
  | html (c : HtmlContent)
  | plot (plot_type : String) (data : List (String × ColumnVal))
  | table (data : List (String × ColumnVal))

/-- `eval_result` of one unmarshalled content entry. -/
def ContentEntry.evalResult (c : ContentEntry) (evaluated : List EvaluatedVariable)
    (imports : List PyStmt) : Except PyErr ContentResult :=
  match c with
  | .html h => h.evalResult evaluated imports
  | .plot pt data => do
    let r ← commonExtractForColumn ("plot", pt) data imports
    r.evalResult evaluated
  | .table data => do
    let r ← commonExtractForColumn ("table", "table") data imports
    r.evalResult evaluated

/-! ## Template orchestration — `src/app/template/__init__.py` and
`unmarshal_variable` in `src/app/template/variable/model.py`

Data-source I/O (`file`/`api` sources) is an external collaborator per the
specification's `SourceLoader` boundary; sources are modelled by their
materialized mapping (`dict` sources).  The string list returned alongside
each result records the names of the sources actually loaded, in order —
the observable source-loading effects. -/

/-- A data-source descriptor after `unmarshal_data_source` (construction
only; no data is read until `load_async` is called). -/
structure DataSourceDesc where
  name : String
  data : JsonVal

/-- One entry of the template's `variables` list.  String expression fields
are represented by their parse trees (Python's `ast.parse` is the host
parser). -/
structure VarEntry where
  name : String
  expr : Option (List PyStmt) := .none
  source : Option String := .none
  json_path : List PathSeg := []
  formatter : Option (List PyStmt) := .none

/-- `unmarshal_variable(variable, data_sources, loaded_sources, imports)`:
an `expr` field makes a `LiteralVariable`; a `source` field loads the named
data source (memoized in `loaded_sources`) and makes a `PathVariable`;
otherwise `ValueError("Invalid variable type")`.  Returns the variable, the
updated cache, and the load log. -/
def unmarshalVariable (v : VarEntry) (dataSources : List DataSourceDesc)
    (cache : List (String × JsonVal)) (imports : List PyStmt) :
    Except PyErr (IVariable × List (String × JsonVal) × List String) :=
  match v.expr with
  | some body => do
    let e ← lazyExprInit imports body
    let fmt ←
      match v.formatter with
      | .none => pure Option.none
      | some f => (lazyExprInit imports f).map some
    .ok (LiteralVariable.toIVariable ⟨v.name, e, fmt, .none⟩, cache, [])
  | .none =>
    match v.source with
    | some srcName =>
      let mk : JsonVal → List (String × JsonVal) → List String →
          Except PyErr (IVariable × List (String × JsonVal) × List String) :=
        fun data cache' log => do
          let fmt ←
            match v.formatter with
            | .none => pure Option.none
            | some f => (lazyExprInit imports f).map some
          .ok (PathVariable.toIVariable
            ⟨v.name, data, v.json_path, fmt, .none, .none, .none⟩, cache', log)
      match cache.lookup srcName with
      | some data => mk data cache []
      | .none =>
        match dataSources.find? (fun s => s.name = srcName) with
        | .none => .error (.sourceNotFound srcName)
        | some s => mk s.data (cache ++ [(srcName, s.data)]) [srcName]
    | .none => .error .invalidVariable

/-- The `unmarshal_variable` loop of `unmarshal_template`, threading the
per-request source cache and accumulating the load log. -/
def unmarshalVariables : List VarEntry → List DataSourceDesc →
    List (String × JsonVal) → List PyStmt →
    Except PyErr (List IVariable) × List String
  | [], _, _, _ => (.ok [], [])
  | v :: vs, dss, cache, imports =>
    match unmarshalVariable v dss cache imports with
    | .error e => (.error e, [])
    | .ok (iv, cache', log1) =>
      match unmarshalVariables vs dss cache' imports with
      | (.error e, log2) => (.error e, log1 ++ log2)
      | (.ok ivs, log2) => (.ok (iv :: ivs), log1 ++ log2)

/-- Evaluate each content entry in order, first failure aborting. -/
def evalContents (entries : List ContentEntry) (evaluated : List EvaluatedVariable)
    (imports : List PyStmt) : Except PyErr (List ContentResult) :=
  match entries with
  | [] => .ok []
  | c :: cs => do
    let r ← c.evalResult evaluated imports
    let rest ← evalContents cs evaluated imports
    .ok (r :: rest)

/-- A template document (`data: Dict[str, Any]`); absent keys are `none`. -/
structure TemplateDoc where
  imports : Option (List PyStmt) := .none
  data_sources : Option (List DataSourceDesc) := .none
  /-- The `variables` key (the name is reserved in Lean). -/
  varEntries : Option (List VarEntry) := .none
  content : Option (List ContentEntry) := .none

/-- The response of `unmarshal_template` (`TemplateReturn`): the evaluated
variables as `[{name: value}, ...]` and the rendered content. -/
structure TemplateReturn where
  /-- The `variables` key of the response (the name is reserved in Lean). -/
  varValues : List (String × Value)
  content : List ContentResult

/-- `unmarshal_template(data)`.  Steps in source order: read `imports`;
construct the data-source handles (construction reads nothing); read
`variables` (default `[]`) and reject an empty list with
`ValueError("no variables provided")`; unmarshal each variable (loading
referenced sources, memoized); unmarshal content; resolve and evaluate;
render each content item.  The second component is the source-load log. -/
def unmarshal_template (doc : TemplateDoc) :
    Except PyErr TemplateReturn × List String :=
  let imports := doc.imports.getD []
  let dataSources := doc.data_sources.getD []
  let variables_ := doc.varEntries.getD []
  if variables_.length = 0 then (.error .noVariables, [])
  else
    match unmarshalVariables variables_ dataSources [] imports with
    | (.error e, log) => (.error e, log)
    | (.ok vars, log) =>
      match resolve_and_evaluate vars with
      | .error e => (.error e, log)
      | .ok evaluated =>
        match evalContents (doc.content.getD []) evaluated imports with
        | .error e => (.error e, log)
        | .ok contents =>
          (.ok ⟨evaluated.map (fun v => (v.name, v.value)), contents⟩, log)

/-! ## Concrete scenarios of the specification

String expressions appear as their parse trees; e.g. `"a * 10"` parses to
`BinOp(Name("a"), Mult, Constant(10))`. -/

/-- Build the `IVariable` record of a literal variable from its parsed
expression body, as `LiteralVariable(name=..., expr=...)` constructs it with
no formatter, type, or extra imports. -/
def mkLiteralIV (nm : String) (body : List PyStmt) : Except PyErr IVariable :=
  (lazyExprInit [] body).map (fun e => LiteralVariable.toIVariable ⟨nm, e, .none, .none⟩)

/-- The resolver obtained from `add_many` on a fresh resolver; the fallback
on a construction failure is the empty resolver and is never taken in the
uses below (each is discharged by computation). -/
def resolverOf (vars : Except PyErr (List IVariable)) : DependencyResolver :=
  match vars.bind (DependencyResolver.addMany {}) with
  | .ok r => r
  | .error _ => {}

/-- Scenario A: `a = "1 + 2"`, `b = "a * 10"`, `c = "a + b"`, no imports. -/
def scenarioAVars : Except PyErr (List IVariable) := do
  let a ← mkLiteralIV "a" [.exprStmt (.binop .add (.intLit 1) (.intLit 2))]
  let b ← mkLiteralIV "b" [.exprStmt (.binop .mul (.name "a") (.intLit 10))]
  let c ← mkLiteralIV "c" [.exprStmt (.binop .add (.name "a") (.name "b"))]
  .ok [a, b, c]

/-- Scenario A evaluated end to end through `resolve_and_evaluate`. -/
def scenarioA : Except PyErr (List EvaluatedVariable) :=
  scenarioAVars.bind resolve_and_evaluate

/-- Scenario B: `x = "y+1"`, `y = "x+1"`. -/
def scenarioBVars : Except PyErr (List IVariable) := do
  let x ← mkLiteralIV "x" [.exprStmt (.binop .add (.name "y") (.intLit 1))]
  let y ← mkLiteralIV "y" [.exprStmt (.binop .add (.name "x") (.intLit 1))]
  .ok [x, y]

/-- The resolver holding Scenario B's variables. -/
def scenarioBResolver : DependencyResolver := resolverOf scenarioBVars

/-- Scenario C: the single variable `a = "missing + 1"`. -/
def scenarioCVars : Except PyErr (List IVariable) := do
  let a ← mkLiteralIV "a" [.exprStmt (.binop .add (.name "missing") (.intLit 1))]
  .ok [a]

/-- The resolver holding Scenario C's variable. -/
def scenarioCResolver : DependencyResolver := resolverOf scenarioCVars

/-- Scenario D's content item: `{tag: "p", content: "value is ${pi}",
style: {}}`. -/
def scenarioDContent : HtmlContent :=
  ⟨"p", "value is ${pi}".toList, []⟩

/-- Scenario E's materialized source:
`users = {"list": [{"age": 10}, {"age": 20}, {"age": 30}]}`. -/
def usersData : JsonVal :=
  .obj [("list", .arr [.obj [("age", .num 10)], .obj [("age", .num 20)],
                       .obj [("age", .num 30)]])]

/-- Scenario E's `ages` variable: a `PathVariable` over `users` with
`json_path = "$.list[*].age"` and nothing else set. -/
def agesVariable : PathVariable :=
  ⟨"ages", usersData, [.field "list", .wildcard, .field "age"],
   .none, .none, .none, .none⟩

/-- Scenario E: `ages` then `mean = "sum(ages)/len(ages)"`. -/
def scenarioEVars : Except PyErr (List IVariable) := do
  let mean ← mkLiteralIV "mean"
    [.exprStmt (.binop .div
      (.call (.name "sum") [.name "ages"])
      (.call (.name "len") [.name "ages"]))]
  .ok [agesVariable.toIVariable, mean]

/-- Scenario E evaluated end to end. -/
def scenarioE : Except PyErr (List EvaluatedVariable) :=
  scenarioEVars.bind resolve_and_evaluate

/-- The table refuting C2's order-independence: `c = "a + b"`, `b = "1"`,
`a = "2"` — every referenced identifier is declared, yet the declaration
order differs from the graph's node-insertion order. -/
def c2Vars : Except PyErr (List IVariable) := do
  let c ← mkLiteralIV "c" [.exprStmt (.binop .add (.name "a") (.name "b"))]
  let b ← mkLiteralIV "b" [.exprStmt (.intLit 1)]
  let a ← mkLiteralIV "a" [.exprStmt (.intLit 2)]
  .ok [c, b, a]

/-- The resolver holding the C2 counterexample table. -/
def c2Resolver : DependencyResolver := resolverOf c2Vars

/-- The table refuting C3's error choice: `x = "y + m"`, `y = "x + 1"` — a
cycle between the declared `x` and `y`, plus the undeclared reference
`m`. -/
def c3Vars : Except PyErr (List IVariable) := do
  let x ← mkLiteralIV "x" [.exprStmt (.binop .add (.name "y") (.name "m"))]
  let y ← mkLiteralIV "y" [.exprStmt (.binop .add (.name "x") (.intLit 1))]
  .ok [x, y]

/-- The resolver holding the C3 counterexample table. -/
def c3Resolver : DependencyResolver := resolverOf c3Vars

/-! ## Notions used by the theorems -/

/-- A non-empty edge path `u → w₁ → … → wₖ → v` through the graph (the
intermediate nodes listed in order); with `u = v` this is a cycle. -/
def edgePathB (g : DiGraph) : String → List String → String → Bool
  | u, [], v => decide ((u, v) ∈ g.edges)
  | u, w :: ws, v => decide ((u, w) ∈ g.edges) && edgePathB g w ws v

/-- A valid topological order of a graph: every node occurs, without
duplicates, and every edge's source strictly precedes its target. -/
def TopoValid (g : DiGraph) (topo : List String) : Prop :=
  (∀ n ∈ g.nodes, n ∈ topo) ∧ topo.Nodup ∧
  ∀ e ∈ g.edges, idxOf e.1 topo < idxOf e.2 topo

/-- Whether an `Except` is a success. -/
def exceptIsOk {α : Type} : Except PyErr α → Bool
  | .ok _ => true
  | .error _ => false

/-- The statement forms the safety policy rejects: assignments, class
definitions, function definitions. -/
def stmtDisallowed : PyStmt → Bool
  | .assign _ _ => true
  | .classDef _ => true
  | .funcDef _ _ => true
  | _ => false

/-- Fold the bindings of already-evaluated variables into an environment, in
order — the accumulated effect of `env[var.name] = val`. -/
def envUpdate (env : PyDict) (vs : List EvaluatedVariable) : PyDict :=
  vs.foldl (fun e v => dictSet e v.name v.value) env

/-- Scenario F's input text. -/
def scenarioFText : List Char := "sum = ${ sum({x for x in range(3)}) }".toList

/-- The loop invariant of the embedded `nx.topological_sort` (Kahn's
algorithm): `acc` are the yielded nodes, `zero` the pending zero-in-degree
nodes, `degs` the in-degree map of the rest.  It ties `degs` to the count of
edges whose source has not been yielded, forces pending nodes' predecessors
to be yielded already, and keeps `acc` topologically ordered. -/
structure KInv (g : DiGraph) (zero : List String) (degs : List (String × Nat))
    (acc : List String) : Prop where
  accN : acc.Nodup
  zeroN : zero.Nodup
  keysN : (degs.map Prod.fst).Nodup
  dAZ : ∀ a ∈ acc, a ∉ zero
  dAK : ∀ a ∈ acc, a ∉ degs.map Prod.fst
  dZK : ∀ a ∈ zero, a ∉ degs.map Prod.fst
  cover : ∀ n, n ∈ g.nodes ↔ (n ∈ acc ∨ n ∈ zero ∨ n ∈ degs.map Prod.fst)
  degPos : ∀ pr ∈ degs, 0 < pr.2
  degCount : ∀ pr ∈ degs, pr.2 =
    (g.edges.filter (fun e =>
      e.2 = pr.1 ∧ (e.1 ∈ zero ∨ e.1 ∈ degs.map Prod.fst))).length
  zeroSrc : ∀ e ∈ g.edges, e.2 ∈ zero → e.1 ∈ acc
  accOrd : ∀ e ∈ g.edges, e.2 ∈ acc → e.1 ∈ acc ∧ idxOf e.1 acc < idxOf e.2 acc

/-- Association-list lookup with propositional key equality, the shape the
in-degree-map lemmas below reason with. -/
def alGet : List (String × Nat) → String → Option Nat
  | [], _ => .none
  | (k, v) :: rest, a => if k = a then some v else alGet rest a

/-! ## Theorems -/

/-- C1: `DependencyResolver.eval` processes the variables in resolved
topological order and places each variable's binding into the mutable
environment before the next variable's load runs (first conjunct: every
variable evaluated after a prefix sees exactly the environment extended with
that prefix's bindings), calling `eval_formatter` after `load`; hence
Scenario A (`a = "1 + 2"`, `b = "a * 10"`, `c = "a + b"`) evaluates to
exactly `[{a: 3}, {b: 30}, {c: 33}]` in that order, with no formatters. -/
theorem c1_dependency_ordered_eval :
    (∀ (vs1 vs2 : List IVariable) (env : PyDict),
      evalVars (vs1 ++ vs2) env =
        (evalVars vs1 env).bind (fun o1 =>
          (evalVars vs2 (envUpdate env o1)).map (fun o2 => o1 ++ o2))) ∧
    scenarioA = .ok [⟨"a", .int 3, .none⟩, ⟨"b", .int 30, .none⟩,
                     ⟨"c", .int 33, .none⟩] := by
  constructor
  · intro vs1 vs2 env
    induction vs1 generalizing env with
    | nil =>
      cases h : evalVars vs2 env <;>
        simp [evalVars, envUpdate, h, Except.bind, Except.map]
    | cons v vs ih =>
      simp only [List.cons_append, evalVars, List.append_eq]
      cases hl : v.load env with
      | error e => simp [Except.bind]
      | ok val =>
        simp only []
        cases hf : v.evalFormatter (dictSet env v.name val) with
        | error e => simp [Except.bind]
        | ok fmt =>
          simp only []
          rw [ih]
          cases hrest : evalVars vs (dictSet env v.name val) with
          | error e => simp [Except.bind]
          | ok rest =>
            simp only [Except.bind]
            have henv : envUpdate env (⟨v.name, val, fmt⟩ :: rest) =
                envUpdate (dictSet env v.name val) rest := rfl
            rw [henv]
            cases hv2 : evalVars vs2 (envUpdate (dictSet env v.name val) rest) <;>
              simp [Except.map]
  · rfl

/-- C4 (code bug): Scenario D's content `"value is ${pi}"` ends with its
placeholder, so the extractor's loop resumes at an offset equal to the text
length and `_parse_step` returns `IndexError`, which `parse` does not treat
as end of input; `HtmlContent.eval_result` therefore raises that
`IndexError` for EVERY evaluated-variable list — the claimed rendering
`"value is 3.14"` is never produced.  (Had parsing succeeded, `extract`
would still crash reading the class attribute `ParseResult.table`, `load`
would replace `#token#` although the canonical text carries the bare token,
and `solely_dependency` would raise `AttributeError`.) -/
theorem c4_html_render_crashes :
    extractorParse scenarioDContent.content = .error .indexError ∧
    ∀ (evaluated : List EvaluatedVariable) (imports : List PyStmt),
      scenarioDContent.evalResult evaluated imports = .error .indexError :=
  ⟨rfl, fun _ _ => rfl⟩

/-- C6 (code bug): on Scenario F's input the single parse step does locate
the matching brace with the nested-brace counter and extracts the full
expression `" sum({x for x in range(3)}) "` — but the placeholder ends the
text, so the loop's next offset equals the rewritten text's length and
`parse` returns `IndexError` instead of the one-entry table. -/
theorem c6_nested_brace_extraction :
    (parseStep scenarioFText 0).map (fun r => r.expr) =
      .ok " sum({x for x in range(3)}) ".toList ∧
    (parseStep scenarioFText 0).map (fun r => r.offset) = .ok 14 ∧
    extractorParse scenarioFText = .error .indexError :=
  ⟨rfl, rfl, rfl⟩

/-- C7 counterexample: the two-statement source `x = 1⏎x + 2` contains an
assignment, yet `LazyExpr` construction SUCCEEDS — only the trailing
expression is kept (with the non-fatal multiple-statements warning), so the
assignment never reaches the visitor's `visit_Assign`. -/
theorem c7_counterexample :
    (let body := [PyStmt.assign "x" (.intLit 1),
                  PyStmt.exprStmt (.binop .add (.name "x") (.intLit 2))]
     body.any stmtDisallowed = true ∧
     exceptIsOk (lazyExprInit [] body) = true ∧
     (lazyExprInit [] body).map (fun l => l.multiWarning) = .ok true) :=
  ⟨rfl, rfl, rfl⟩

/-- C7 amended: a disallowed statement (assignment, class definition,
function definition) in FINAL position makes `LazyExpr` construction fail
with a hard error (the last statement is not an expression); a disallowed
statement in non-final position is discarded — only the trailing expression
enters the synthesized tree — and construction succeeds, emitting the
multiple-statements warning exactly when the body has more than one
statement. -/
theorem c7_safety_rejection_amended :
    (∀ (pre ss : List PyStmt) (s : PyStmt), stmtDisallowed s = true →
      exceptIsOk (lazyExprInit pre (ss ++ [s])) = false) ∧
    (∀ (ss : List PyStmt) (e : PyExpr),
      lazyExprInit [] (ss ++ [.exprStmt e]) =
        .ok ⟨[.funcDef MAGIC_FN_NAME [.ret e]], visitExpr {} e,
             decide (0 < ss.length)⟩) := by
  constructor
  · intro pre ss s hs
    unfold lazyExprInit
    cases hv : validateImports pre with
    | error e => rfl
    | ok u =>
      rw [List.getLast?_concat]
      cases s <;> simp_all [stmtDisallowed, exceptIsOk]
  · intro ss e
    unfold lazyExprInit
    rw [List.getLast?_concat]
    simp [validateImports, visitStmtList, visitStmt, MAGIC_FN_NAME]

/-- C7 amended witness: the theorem applied to the empty prelude, empty
prefix, and a final assignment. -/
theorem c7_safety_rejection_amended_witness :
    stmtDisallowed (.assign "x" (.intLit 1)) = true ∧
    exceptIsOk (lazyExprInit [] ([] ++ [PyStmt.assign "x" (.intLit 1)])) = false :=
  ⟨rfl, c7_safety_rejection_amended.1 [] [] (.assign "x" (.intLit 1)) rfl⟩

/-- C8 (code bug): free-variable analysis at the claim's own examples.  For
the list comprehension `[x for x in range(3)]` and the set comprehension
`{x for x in range(3)}` the finder reports `{"x", "range"}`: the target `x`
LEAKS (only `visit_GeneratorExp` registers comprehension targets; ListComp
and SetComp have no handler), and the builtin `range` is retained because
the subtracted "builtins" set is `set(dir(__builtins__))` — the dict
attribute names, of which `range` is not one.  Only the generator expression
`(x for x in range(3))` excludes its target, and even it retains `range`. -/
theorem c8_unbound_analysis_diverges :
    (lazyExprInit [] [.exprStmt (.listComp (.name "x") ["x"]
        (.call (.name "range") [.intLit 3]))]).map LazyExpr.unbound =
      .ok ["x", "range"] ∧
    (lazyExprInit [] [.exprStmt (.setComp (.name "x") ["x"]
        (.call (.name "range") [.intLit 3]))]).map LazyExpr.unbound =
      .ok ["x", "range"] ∧
    (lazyExprInit [] [.exprStmt (.genExp (.name "x") ["x"]
        (.call (.name "range") [.intLit 3]))]).map LazyExpr.unbound =
      .ok ["range"] ∧
    "range" ∈ pythonBuiltinNames ∧ "range" ∉ dictDirNames ∧
    "x" ∉ pythonBuiltinNames ∧ "x" ∉ dictDirNames :=
  ⟨rfl, rfl, rfl, by decide, by decide, by decide, by decide⟩

/-- C9 counterexample: the `ages` PathVariable of Scenario E loads the FIRST
match of `$.list[*].age` — the integer `10` (`match[0].value`) — not the
list `[10, 20, 30]` the claim states. -/
theorem c9_counterexample_first_match :
    agesVariable.load [] = .ok (.int 10) ∧
    (Value.int 10 : Value) ≠ .list [.int 10, .int 20, .int 30] :=
  ⟨rfl, by simp⟩

/-- C9 amended: `ages` loads the first-match value `10`; moreover Scenario E
never produces the claimed output `[{ages: [10,20,30]}, {mean: 20}]`, since
`mean`'s unbound set retains the builtins `sum` and `len` (the finder
subtracts dict attribute names, not Python builtins), so resolution fails
with the unbound-variables error naming them. -/
theorem c9_jsonpath_amended :
    agesVariable.load [] = .ok (.int 10) ∧
    scenarioE = .error (.resolveFailed (.unboundVariables ["sum", "len"])) :=
  ⟨rfl, rfl⟩

/-- C10: a template document whose `variables` entry is missing or an empty
list is rejected by `unmarshal_template` with the "no variables provided"
error, with an empty source-load log — before any source loading,
resolution, or content rendering; a template consisting only of content
items can never be evaluated. -/
theorem c10_empty_variables_rejected (doc : TemplateDoc)
    (h : doc.varEntries = Option.none ∨ doc.varEntries = some []) :
    unmarshal_template doc = (.error .noVariables, []) := by
  rcases h with h | h <;> simp [unmarshal_template, h]

/-- C10 witness: a document carrying only a content item (Scenario D's) and
no `variables` key. -/
theorem c10_empty_variables_rejected_witness :
    (TemplateDoc.mk .none .none .none (some [.html scenarioDContent])).varEntries
        = Option.none ∧
    unmarshal_template ⟨.none, .none, .none, some [.html scenarioDContent]⟩ =
      (.error .noVariables, []) :=
  ⟨rfl, c10_empty_variables_rejected _ (Or.inl rfl)⟩

/-- C2 counterexample: in the table `c = "a + b"`, `b = "1"`, `a = "2"`
every referenced identifier is a declared variable, yet `resolve` fails,
reporting the DECLARED variable `b` as unbound: the scan tests the graph's
nodes (in first-mention order `c, a, b`) against a single one-shot iterator
over the declared names `c, b, a`, and looking up node `a` consumes `b`
from the iterator. -/
theorem c2_counterexample_declared_reported :
    c2Resolver.resolve = .error (.unboundVariables ["b"]) ∧
    c2Resolver.graph.nodes = ["c", "a", "b"] ∧
    c2Resolver.table.map (fun v => v.name) = ["c", "b", "a"] ∧
    (∀ v ∈ c2Resolver.table, ∀ u ∈ v.unbound,
      u ∈ c2Resolver.table.map (fun w => w.name)) :=
  ⟨rfl, rfl, rfl, by decide⟩

/-- C2 amended: `resolve` tests each graph node against a single one-shot
iterator of the declared names, so when the graph's nodes list the declared
names first, in declaration order, followed only by undeclared names, the
scan flags exactly the undeclared ones: resolution then reports precisely
those (and reports no unbound error when there are none).  In particular
Scenario C fails reporting `["missing"]` (see the witness).  For node orders
violating that condition, declared variables can be reported unbound (see
the counterexample). -/
theorem c2_unbound_detection_amended (r : DependencyResolver) (extra : List String)
    (hshape : r.graph.nodes = r.table.map (fun v => v.name) ++ extra) :
    invalidScan r.graph.nodes (r.table.map (fun v => v.name)) = extra ∧
    (extra = [] → ∀ ns, r.resolve ≠ .error (.unboundVariables ns)) ∧
    (extra ≠ [] → r.resolve = .error (.unboundVariables extra)) := by
  have scan : ∀ (names ex : List String), invalidScan (names ++ ex) names = ex := by
    intro names
    induction names with
    | nil =>
      intro ex
      induction ex with
      | nil => rfl
      | cons x xs ih => simpa [invalidScan, iterContains] using ih
    | cons n ns ih =>
      intro ex
      simp [invalidScan, iterContains, ih]
  have hscan : invalidScan r.graph.nodes (r.table.map (fun v => v.name)) = extra := by
    rw [hshape]; exact scan _ _
  refine ⟨hscan, ?_, ?_⟩
  · intro hex ns
    unfold DependencyResolver.resolve
    rw [hscan, hex]
    simp only [List.isEmpty_nil, if_true]
    cases kahn r.graph <;> simp
  · intro hex
    unfold DependencyResolver.resolve
    rw [hscan]
    simp [List.isEmpty_iff, hex]

/-- C2 amended witness: Scenario C's resolver satisfies the node-order
condition with `extra = ["missing"]`, and resolution reports exactly
`["missing"]`. -/
theorem c2_unbound_detection_amended_witness :
    scenarioCResolver.graph.nodes =
      scenarioCResolver.table.map (fun v => v.name) ++ ["missing"] ∧
    scenarioCResolver.resolve = .error (.unboundVariables ["missing"]) :=
  ⟨rfl, (c2_unbound_detection_amended scenarioCResolver ["missing"] rfl).2.2
    (by simp)⟩

/-- A text without the substring `"${"` makes the scan of `_parse_step` fall
through to `EOFError`. -/
theorem findDollar_eq_none : ∀ {l : List Char}, ¬ (['$', '{'] <:+: l) →
    findDollar l = .none := by
  intro l h
  induction l with
  | nil => rfl
  | cons c rest ih =>
    rw [List.infix_cons_iff] at h
    push_neg at h
    rw [findDollar.eq_def]
    split
    · rfl
    · rename_i heq
      exact absurd (heq ▸ ⟨_, rfl⟩) h.1
    · rename_i heq
      cases heq
      rw [ih h.2]
      rfl

/-- C5 (code bug): on every NONEMPTY text without `"${"` the extractor
returns the text unchanged with an empty table; but on the empty text it
returns `IndexError("Start offset out of range")` instead of
`{text: "", table: []}` — `parse` treats only `EOFError` as end of input,
and `_parse_step` guards `start_offset >= len(text)` with `IndexError`. -/
theorem c5_extractor_identity :
    extractorParse [] = .error .indexError ∧
    ∀ (t : List Char), t ≠ [] → ¬ (['$', '{'] <:+: t) →
      extractorParse t = .ok ⟨t, []⟩ := by
  refine ⟨rfl, fun t ht hinf => ?_⟩
  have h1 : findDollar t = .none := findDollar_eq_none hinf
  have hlen : ¬ (t.length ≤ 0) := by
    cases t with
    | nil => exact absurd rfl ht
    | cons c cs => simp
  show parseLoop (t.length + 1) t 0 [] = .ok ⟨t, []⟩
  unfold parseLoop parseStep
  simp [hlen, h1]

/-- C5 witness: the theorem applied at the text `"abc"`. -/
theorem c5_extractor_identity_witness :
    ("abc".toList ≠ [] ∧ ¬ (['$', '{'] <:+: "abc".toList)) ∧
    extractorParse "abc".toList = .ok ⟨"abc".toList, []⟩ :=
  ⟨⟨by decide, by decide⟩,
   c5_extractor_identity.2 "abc".toList (by decide) (by decide)⟩

/-- Position lookup is stable under appending when the element occurs. -/
theorem idxOf_append_left {x : String} {l1 : List String} (l2 : List String)
    (h : x ∈ l1) : idxOf x (l1 ++ l2) = idxOf x l1 := by
  induction l1 with
  | nil => cases h
  | cons y ys ih =>
    by_cases hy : y = x
    · simp [idxOf, hy]
    · rcases List.mem_cons.mp h with h' | h'
      · exact absurd h'.symm hy
      · simp [idxOf, hy, ih h']

/-- Position lookup within the appended part when the element is absent from
the front. -/
theorem idxOf_append_right {x : String} {l1 : List String} (l2 : List String)
    (h : x ∉ l1) : idxOf x (l1 ++ l2) = l1.length + idxOf x l2 := by
  induction l1 with
  | nil => simp [idxOf]
  | cons y ys ih =>
    have hy : y ≠ x := fun e => h (e ▸ List.mem_cons_self y ys)
    have : x ∉ ys := fun hx => h (List.mem_cons_of_mem _ hx)
    simp [idxOf, hy, ih this]
    omega

/-- A present element's position is below the length. -/
theorem idxOf_lt_length {x : String} {l : List String} (h : x ∈ l) :
    idxOf x l < l.length := by
  induction l with
  | nil => cases h
  | cons y ys ih =>
    by_cases hy : y = x
    · simp [idxOf, hy]
    · rcases List.mem_cons.mp h with h' | h'
      · exact absurd h'.symm hy
      · simp [idxOf, hy]
        exact ih h'

/-- `alGet` misses exactly the absent keys. -/
theorem alGet_eq_none {l : List (String × Nat)} {k : String} :
    alGet l k = .none ↔ k ∉ l.map Prod.fst := by
  induction l with
  | nil => simp [alGet]
  | cons pr rest ih =>
    obtain ⟨k0, v0⟩ := pr
    by_cases hk : k0 = k
    · subst hk
      simp [alGet]
    · have hk' : k ≠ k0 := fun h => hk h.symm
      simp [alGet, hk, ih, hk']

/-- Members of a duplicate-free association list are found by `alGet`. -/
theorem alGet_of_mem {l : List (String × Nat)} {k : String} {v : Nat}
    (hn : (l.map Prod.fst).Nodup) (h : (k, v) ∈ l) : alGet l k = some v := by
  induction l with
  | nil => cases h
  | cons pr rest ih =>
    obtain ⟨k0, v0⟩ := pr
    rcases List.mem_cons.mp h with h' | h'
    · cases h'
      simp [alGet]
    · have hk : k0 ≠ k := by
        rintro rfl
        exact (List.nodup_cons.mp hn).1
          (List.mem_map.mpr ⟨(k0, v), h', rfl⟩)
      simp [alGet, hk, ih (List.nodup_cons.mp hn).2 h']

/-- `alGet` successes are members. -/
theorem mem_of_alGet {l : List (String × Nat)} {k : String} {v : Nat}
    (h : alGet l k = some v) : (k, v) ∈ l := by
  induction l with
  | nil => cases h
  | cons pr rest ih =>
    obtain ⟨k0, v0⟩ := pr
    by_cases hk : k0 = k
    · subst hk
      simp [alGet] at h
      simp [h]
    · simp [alGet, hk] at h
      exact List.mem_cons_of_mem _ (ih h)

/-- Deleting or decrementing keeps the key list a sublist. -/
theorem decSucc_fst_sublist (l : List (String × Nat)) (c : String) :
    List.Sublist (((decSucc l c).1).map Prod.fst) (l.map Prod.fst) := by
  induction l with
  | nil => simp [decSucc]
  | cons pr rest ih =>
    obtain ⟨k0, v0⟩ := pr
    by_cases hk : k0 = c
    · by_cases hv : v0 = 1
      · simp only [decSucc, hk, hv, if_true, List.map_cons]
        exact (List.Sublist.refl _).cons _
      · simp only [decSucc, hk, hv, if_true, if_false, List.map_cons]
        exact (List.Sublist.refl _).cons₂ _
    · simp only [decSucc, hk, if_false, List.map_cons]
      exact ih.cons₂ _

/-- Pointwise effect of `decSucc` on lookups (duplicate-free keys). -/
theorem decSucc_alGet {l : List (String × Nat)} {c : String}
    (hn : (l.map Prod.fst).Nodup) (k : String) :
    alGet (decSucc l c).1 k =
      if k = c then (alGet l c).bind (fun d => if d = 1 then .none else some (d - 1))
      else alGet l k := by
  induction l with
  | nil => simp [decSucc, alGet]
  | cons pr rest ih =>
    obtain ⟨k0, v0⟩ := pr
    have hn' : (rest.map Prod.fst).Nodup := (List.nodup_cons.mp hn).2
    have hk0 : k0 ∉ rest.map Prod.fst := (List.nodup_cons.mp hn).1
    by_cases hkc : k0 = c
    · subst hkc
      by_cases hv : v0 = 1
      · subst hv
        by_cases hk : k = k0
        · subst hk
          simp [decSucc, alGet, alGet_eq_none.mpr hk0]
        · have hk' : k0 ≠ k := fun h => hk h.symm
          simp [decSucc, alGet, hk, hk']
      · by_cases hk : k = k0
        · subst hk
          simp [decSucc, alGet, hv]
        · have : k0 ≠ k := fun h => hk h.symm
          simp [decSucc, alGet, hv, this, hk]
    · by_cases hk : k = c
      · subst hk
        have : k0 ≠ k := hkc
        simp [decSucc, alGet, this, ih hn']
      · by_cases hk0k : k0 = k
        · subst hk0k
          simp [decSucc, alGet, hkc, ih hn', hk]
        · simp [decSucc, alGet, hkc, hk0k, ih hn', hk]

/-- The hit flag of `decSucc` fires exactly on an entry of one. -/
theorem decSucc_snd {l : List (String × Nat)} {c : String}
    (hn : (l.map Prod.fst).Nodup) :
    (decSucc l c).2 = true ↔ alGet l c = some 1 := by
  induction l with
  | nil => simp [decSucc, alGet]
  | cons pr rest ih =>
    obtain ⟨k0, v0⟩ := pr
    have hn' : (rest.map Prod.fst).Nodup := (List.nodup_cons.mp hn).2
    by_cases hkc : k0 = c
    · subst hkc
      by_cases hv : v0 = 1 <;> simp [decSucc, alGet, hv]
    · simp [decSucc, alGet, hkc, ih hn']

/-- Processing a generation keeps the key list a sublist. -/
theorem procChildren_fst_sublist (l : List (String × Nat)) (cs : List String) :
    List.Sublist (((procChildren l cs).1).map Prod.fst) (l.map Prod.fst) := by
  induction cs generalizing l with
  | nil => simp [procChildren]
  | cons c cs' ih =>
    simp only [procChildren]
    exact (ih (decSucc l c).1).trans (decSucc_fst_sublist l c)

/-- Pointwise effect of processing one node's successors on the in-degree
map (duplicate-free keys and children). -/
theorem procChildren_alGet {l : List (String × Nat)} {cs : List String}
    (hn : (l.map Prod.fst).Nodup) (hcs : cs.Nodup) (k : String) :
    alGet (procChildren l cs).1 k =
      if k ∈ cs then
        (alGet l k).bind (fun d => if d = 1 then .none else some (d - 1))
      else alGet l k := by
  induction cs generalizing l with
  | nil => simp [procChildren]
  | cons c cs' ih =>
    have hn1 : (((decSucc l c).1).map Prod.fst).Nodup :=
      (decSucc_fst_sublist l c).nodup hn
    have hcs' : cs'.Nodup := (List.nodup_cons.mp hcs).2
    have hccs' : c ∉ cs' := (List.nodup_cons.mp hcs).1
    simp only [procChildren]
    rw [ih hn1 hcs']
    by_cases hk : k ∈ cs'
    · have hkc : k ≠ c := fun h => hccs' (h ▸ hk)
      rw [decSucc_alGet hn]
      simp [hk, hkc, List.mem_cons]
    · by_cases hkc : k = c
      · subst hkc
        rw [decSucc_alGet hn]
        simp [hk, List.mem_cons]
      · rw [decSucc_alGet hn]
        simp [hk, hkc, List.mem_cons]

/-- The newly-zero nodes of a generation are exactly the children whose
in-degree entry was one, in child order. -/
theorem procChildren_zeros {l : List (String × Nat)} {cs : List String}
    (hn : (l.map Prod.fst).Nodup) (hcs : cs.Nodup) :
    (procChildren l cs).2 = cs.filter (fun c => alGet l c == some 1) := by
  induction cs generalizing l with
  | nil => simp [procChildren]
  | cons c cs' ih =>
    have hn1 : (((decSucc l c).1).map Prod.fst).Nodup :=
      (decSucc_fst_sublist l c).nodup hn
    have hcs' : cs'.Nodup := (List.nodup_cons.mp hcs).2
    have hccs' : c ∉ cs' := (List.nodup_cons.mp hcs).1
    simp only [procChildren]
    rw [ih hn1 hcs']
    have hfilter : cs'.filter (fun x => alGet (decSucc l c).1 x == some 1) =
        cs'.filter (fun x => alGet l x == some 1) := by
      apply List.filter_congr
      intro x hx
      have hxc : x ≠ c := fun h => hccs' (h ▸ hx)
      rw [decSucc_alGet hn]
      simp [hxc]
    rw [hfilter, List.filter_cons]
    by_cases hhit : (decSucc l c).2 = true
    · have h1 : alGet l c = some 1 := (decSucc_snd hn).mp hhit
      simp [hhit, h1]
    · have h1 : ¬ alGet l c = some 1 := fun h => hhit ((decSucc_snd hn).mpr h)
      simp only [Bool.not_eq_true] at hhit
      simp [hhit, h1]

/-- Membership in a node's successor list is edge membership. -/
theorem mem_successors {g : DiGraph} {n c : String} :
    c ∈ g.successors n ↔ (n, c) ∈ g.edges := by
  simp only [DiGraph.successors, List.mem_map, List.mem_filter]
  constructor
  · rintro ⟨e, ⟨he, hfst⟩, hsnd⟩
    have : e = (n, c) := by
      cases e
      simp only [decide_eq_true_eq] at hfst
      simp_all
    exact this ▸ he
  · intro h
    exact ⟨(n, c), ⟨h, by simp⟩, rfl⟩

/-- With duplicate-free edges each node's successor list is
duplicate-free. -/
theorem successors_nodup {g : DiGraph} (h : g.edges.Nodup) (n : String) :
    (g.successors n).Nodup := by
  have hf : (g.edges.filter (fun e => e.1 = n)).Nodup := h.filter _
  apply hf.map_on
  intro x hx y hy hxy
  have hx1 : x.1 = n := by
    have := (List.mem_filter.mp hx).2
    simpa using this
  have hy1 : y.1 = n := by
    have := (List.mem_filter.mp hy).2
    simpa using this
  cases x; cases y
  simp_all

/-- Counting over a disjunction of disjoint predicates splits. -/
theorem countP_or_split {α : Type} (l : List α) (p q : α → Bool)
    (hdisj : ∀ x ∈ l, ¬(p x = true ∧ q x = true)) :
    l.countP (fun x => p x || q x) = l.countP p + l.countP q := by
  induction l with
  | nil => simp
  | cons a rest ih =>
    have hd' : ∀ x ∈ rest, ¬(p x = true ∧ q x = true) :=
      fun x hx => hdisj x (List.mem_cons_of_mem _ hx)
    rw [List.countP_cons, List.countP_cons, List.countP_cons, ih hd']
    have := hdisj a (List.mem_cons_self _ _)
    by_cases hp : p a = true
    · have hq : ¬ q a = true := fun hq => this ⟨hp, hq⟩
      simp only [Bool.not_eq_true] at hq
      simp [hp, hq]
      omega
    · simp only [Bool.not_eq_true] at hp
      by_cases hq : q a = true
      · simp [hp, hq]
        omega
      · simp only [Bool.not_eq_true] at hq
        simp [hp, hq]

/-- In a duplicate-free list a member is counted exactly once. -/
theorem countP_eq_one_of_mem {α : Type} [DecidableEq α] {l : List α} {a : α}
    (hnd : l.Nodup) (h : a ∈ l) : l.countP (fun x => decide (x = a)) = 1 := by
  induction l with
  | nil => cases h
  | cons b rest ih =>
    rw [List.countP_cons]
    obtain ⟨hb1, hb2⟩ := List.nodup_cons.mp hnd
    by_cases hba : b = a
    · subst hba
      have hza : rest.countP (fun x => decide (x = b)) = 0 := by
        rw [List.countP_eq_zero]
        intro x hx
        simp only [decide_eq_true_eq]
        rintro rfl
        exact hb1 hx
      simp [hza]
    · rcases List.mem_cons.mp h with h' | h'
      · exact absurd h'.symm hba
      · simp [hba, ih hb2 h']

/-- An absent element is never counted. -/
theorem countP_eq_zero_of_not_mem {α : Type} [DecidableEq α] {l : List α} {a : α}
    (h : a ∉ l) : l.countP (fun x => decide (x = a)) = 0 := by
  rw [List.countP_eq_zero]
  intro x hx
  simp only [decide_eq_true_eq]
  rintro rfl
  exact h hx

/-- Splitting an in-edge count when one source (`node`) leaves the pending
source set: the old count is the new count plus one for a `node → c` edge,
when present. -/
theorem count_sources_split (edges : List (String × String)) (hnd : edges.Nodup)
    (c node : String) (S S' : String → Prop) [DecidablePred S] [DecidablePred S']
    (hpt : ∀ a, S a ↔ (S' a ∨ a = node)) (hnode : ¬ S' node) :
    (edges.filter (fun e => e.2 = c ∧ S e.1)).length =
      (edges.filter (fun e => e.2 = c ∧ S' e.1)).length +
        (if (node, c) ∈ edges then 1 else 0) := by
  rw [← List.countP_eq_length_filter, ← List.countP_eq_length_filter]
  have hsplit : List.countP (fun e => decide (e.2 = c ∧ S e.1)) edges =
      List.countP (fun e => decide (e.2 = c ∧ S' e.1) ||
        decide (e = (node, c))) edges := by
    apply List.countP_congr
    intro e _
    simp only [decide_eq_true_eq, Bool.or_eq_true]
    constructor
    · rintro ⟨h2, hS⟩
      rcases (hpt e.1).mp hS with hS' | hn
      · exact Or.inl ⟨h2, hS'⟩
      · refine Or.inr ?_
        cases e
        simp_all
    · rintro (⟨h2, hS'⟩ | he)
      · exact ⟨h2, (hpt e.1).mpr (Or.inl hS')⟩
      · subst he
        exact ⟨rfl, (hpt node).mpr (Or.inr rfl)⟩
  rw [hsplit, countP_or_split]
  · congr 1
    by_cases hm : (node, c) ∈ edges
    · rw [if_pos hm]
      exact countP_eq_one_of_mem hnd hm
    · rw [if_neg hm]
      exact countP_eq_zero_of_not_mem hm
  · intro e _
    simp only [decide_eq_true_eq]
    rintro ⟨⟨h2, hS'⟩, he⟩
    subst he
    exact hnode hS'

/-- One iteration of the embedded `nx.topological_sort` loop (pop the last
zero-in-degree node, process its successors) preserves the invariant. -/
theorem KInv.step {g : DiGraph} {zero : List String} {degs : List (String × Nat)}
    {acc : List String} (inv : KInv g zero degs acc)
    (hedges : g.edges.Nodup)
    (hclosed : ∀ e ∈ g.edges, e.1 ∈ g.nodes ∧ e.2 ∈ g.nodes)
    {node : String} (hlast : zero.getLast? = some node) :
    KInv g (zero.dropLast ++ (procChildren degs (g.successors node)).2)
      (procChildren degs (g.successors node)).1 (acc ++ [node]) := by
  have hsplitz : zero.dropLast ++ [node] = zero :=
    List.dropLast_append_getLast? node hlast
  set cs := g.successors node with hcsdef
  set degs' := (procChildren degs cs).1 with hdegs'def
  set zs := (procChildren degs cs).2 with hzsdef
  set zero' := zero.dropLast with hzero'def
  have hnodeZ : node ∈ zero := by rw [← hsplitz]; simp
  have hzero'N : zero'.Nodup := by
    have h := inv.zeroN
    rw [← hsplitz] at h
    exact (List.nodup_append.mp h).1
  have hnodeNZ' : node ∉ zero' := by
    have h := inv.zeroN
    rw [← hsplitz] at h
    intro hmem
    exact (List.nodup_append.mp h).2.2 hmem (by simp)
  have hzero'Sub : ∀ a ∈ zero', a ∈ zero := by
    intro a ha
    rw [← hsplitz]
    exact List.mem_append.mpr (Or.inl ha)
  have hkeysN := inv.keysN
  have hcsN : cs.Nodup := successors_nodup hedges node
  have hmemcs : ∀ c, c ∈ cs ↔ (node, c) ∈ g.edges := fun c => mem_successors
  have hzsMem : ∀ x, x ∈ zs ↔ (x ∈ cs ∧ alGet degs x = some 1) := by
    intro x
    rw [hzsdef, procChildren_zeros hkeysN hcsN, List.mem_filter]
    simp
  have hzsKeys : ∀ x ∈ zs, x ∈ degs.map Prod.fst := by
    intro x hx
    exact List.mem_map.mpr ⟨(x, 1), mem_of_alGet ((hzsMem x).mp hx).2, rfl⟩
  have hzsN : zs.Nodup := by
    rw [hzsdef, procChildren_zeros hkeysN hcsN]
    exact hcsN.filter _
  have hget : ∀ k, alGet degs' k =
      if k ∈ cs then
        (alGet degs k).bind (fun d => if d = 1 then .none else some (d - 1))
      else alGet degs k := procChildren_alGet hkeysN hcsN
  have hkeys'Sub : List.Sublist (degs'.map Prod.fst) (degs.map Prod.fst) :=
    procChildren_fst_sublist degs cs
  have hkeys'N : (degs'.map Prod.fst).Nodup := hkeys'Sub.nodup hkeysN
  have hmemGet : ∀ (l : List (String × Nat)) (k : String),
      k ∈ l.map Prod.fst ↔ alGet l k ≠ .none := by
    intro l k
    constructor
    · intro hk h
      exact alGet_eq_none.mp h hk
    · intro h
      by_contra hk
      exact h (alGet_eq_none.mpr hk)
  have hkeys'Mem : ∀ k, k ∈ degs'.map Prod.fst ↔
      (k ∈ degs.map Prod.fst ∧ k ∉ zs) := by
    intro k
    rw [hmemGet degs' k, hget k]
    by_cases hkcs : k ∈ cs
    · rw [if_pos hkcs]
      cases hdk : alGet degs k with
      | none =>
        constructor
        · intro h
          exact absurd rfl h
        · rintro ⟨hk, _⟩
          rw [hmemGet degs k, hdk] at hk
          exact absurd rfl hk
      | some d =>
        by_cases hd1 : d = 1
        · subst hd1
          constructor
          · intro h
            exact absurd rfl h
          · rintro ⟨_, hkz⟩
            exact absurd ((hzsMem k).mpr ⟨hkcs, hdk⟩) hkz
        · constructor
          · intro _
            refine ⟨List.mem_map.mpr ⟨(k, d), mem_of_alGet hdk, rfl⟩, ?_⟩
            intro hkz
            rw [((hzsMem k).mp hkz).2] at hdk
            exact hd1 (Option.some.inj hdk).symm
          · intro _
            show (if d = 1 then Option.none else some (d - 1)) ≠ Option.none
            rw [if_neg hd1]
            simp
    · rw [if_neg hkcs]
      rw [← hmemGet degs k]
      constructor
      · intro hk
        refine ⟨hk, fun hkz => hkcs ((hzsMem k).mp hkz).1⟩
      · exact fun h => h.1
  have hsrc : ∀ a, (a ∈ zero ∨ a ∈ degs.map Prod.fst) ↔
      ((a ∈ zero' ++ zs ∨ a ∈ degs'.map Prod.fst) ∨ a = node) := by
    intro a
    rw [List.mem_append, hkeys'Mem]
    constructor
    · rintro (haz | hak)
      · rw [← hsplitz] at haz
        rcases List.mem_append.mp haz with h | h
        · exact Or.inl (Or.inl (Or.inl h))
        · exact Or.inr (by simpa using h)
      · by_cases hazs : a ∈ zs
        · exact Or.inl (Or.inl (Or.inr hazs))
        · exact Or.inl (Or.inr ⟨hak, hazs⟩)
    · rintro ((h | h) | rfl)
      · rcases h with h | h
        · exact Or.inl (hzero'Sub a h)
        · exact Or.inr (hzsKeys a h)
      · exact Or.inr h.1
      · exact Or.inl hnodeZ
  have hnodeNotNew : ¬ ((node ∈ zero' ++ zs ∨ node ∈ degs'.map Prod.fst)) := by
    rintro (h | h)
    · rcases List.mem_append.mp h with h | h
      · exact hnodeNZ' h
      · exact inv.dZK node hnodeZ (hzsKeys node h)
    · exact inv.dZK node hnodeZ ((hkeys'Mem node).mp h).1
  have hcount : ∀ k,
      (g.edges.filter (fun e =>
        e.2 = k ∧ (e.1 ∈ zero ∨ e.1 ∈ degs.map Prod.fst))).length =
      (g.edges.filter (fun e =>
        e.2 = k ∧ (e.1 ∈ zero' ++ zs ∨ e.1 ∈ degs'.map Prod.fst))).length +
        (if (node, k) ∈ g.edges then 1 else 0) := by
    intro k
    exact count_sources_split g.edges hedges k node
      (fun a => a ∈ zero ∨ a ∈ degs.map Prod.fst)
      (fun a => a ∈ zero' ++ zs ∨ a ∈ degs'.map Prod.fst) hsrc hnodeNotNew
  refine ⟨?_, ?_, hkeys'N, ?_, ?_, ?_, ?_, ?_, ?_, ?_, ?_⟩
  · -- accN
    rw [List.nodup_append]
    refine ⟨inv.accN, List.nodup_singleton _, ?_⟩
    intro a ha hb
    rw [List.mem_singleton] at hb
    subst hb
    exact inv.dAZ a ha hnodeZ
  · -- zeroN
    rw [List.nodup_append]
    refine ⟨hzero'N, hzsN, ?_⟩
    intro a ha hb
    exact inv.dZK a (hzero'Sub a ha) (hzsKeys a hb)
  · -- dAZ
    intro a ha hb
    rcases List.mem_append.mp ha with ha | ha
    · rcases List.mem_append.mp hb with hb | hb
      · exact inv.dAZ a ha (hzero'Sub a hb)
      · exact inv.dAK a ha (hzsKeys a hb)
    · rw [List.mem_singleton] at ha
      subst ha
      rcases List.mem_append.mp hb with hb | hb
      · exact hnodeNZ' hb
      · exact inv.dZK a hnodeZ (hzsKeys a hb)
  · -- dAK
    intro a ha hb
    have hbk : a ∈ degs.map Prod.fst := ((hkeys'Mem a).mp hb).1
    rcases List.mem_append.mp ha with ha | ha
    · exact inv.dAK a ha hbk
    · rw [List.mem_singleton] at ha
      subst ha
      exact inv.dZK a hnodeZ hbk
  · -- dZK
    intro a ha hb
    rcases List.mem_append.mp ha with ha | ha
    · exact inv.dZK a (hzero'Sub a ha) ((hkeys'Mem a).mp hb).1
    · exact ((hkeys'Mem a).mp hb).2 ha
  · -- cover
    intro n
    rw [inv.cover n]
    have := hsrc n
    rw [List.mem_append, List.mem_singleton]
    constructor
    · rintro (h | h)
      · exact Or.inl (Or.inl h)
      · rcases (hsrc n).mp h with (h' | h') | h'
        · exact Or.inr (Or.inl h')
        · exact Or.inr (Or.inr h')
        · exact Or.inl (Or.inr h')
    · rintro ((h | h) | h | h)
      · exact Or.inl h
      · subst h
        exact Or.inr (Or.inl hnodeZ)
      · exact Or.inr ((hsrc n).mpr (Or.inl (Or.inl h)))
      · exact Or.inr ((hsrc n).mpr (Or.inl (Or.inr h)))
  · -- degPos
    rintro ⟨k, d'⟩ hmem
    have hdk' : alGet degs' k = some d' := alGet_of_mem hkeys'N hmem
    rw [hget k] at hdk'
    by_cases hkcs : k ∈ cs
    · rw [if_pos hkcs] at hdk'
      cases hdk : alGet degs k with
      | none => rw [hdk] at hdk'; simp at hdk'
      | some d =>
        rw [hdk] at hdk'
        by_cases hd1 : d = 1
        · subst hd1; simp at hdk'
        · have hform : (if d = 1 then Option.none else some (d - 1)) = some d' := hdk'
          rw [if_neg hd1] at hform
          have hpos : 0 < d := inv.degPos (k, d) (mem_of_alGet hdk)
          have hd' : d' = d - 1 := (Option.some.inj hform).symm
          show 0 < d'
          omega
    · rw [if_neg hkcs] at hdk'
      exact inv.degPos (k, d') (mem_of_alGet hdk')
  · -- degCount
    rintro ⟨k, d'⟩ hmem
    dsimp only
    have hk' : k ∈ degs'.map Prod.fst := List.mem_map.mpr ⟨(k, d'), hmem, rfl⟩
    have hkk : k ∈ degs.map Prod.fst ∧ k ∉ zs := (hkeys'Mem k).mp hk'
    have hdk' : alGet degs' k = some d' := alGet_of_mem hkeys'N hmem
    cases hdk : alGet degs k with
    | none => exact absurd hkk.1 (alGet_eq_none.mp hdk)
    | some d =>
    have hmemd : (k, d) ∈ degs := mem_of_alGet hdk
    have hold : d = (g.edges.filter (fun e =>
        e.2 = k ∧ (e.1 ∈ zero ∨ e.1 ∈ degs.map Prod.fst))).length :=
      inv.degCount (k, d) hmemd
    have hcnt := hcount k
    rw [hget k] at hdk'
    show d' = _
    by_cases hkcs : k ∈ cs
    · have hind : (node, k) ∈ g.edges := (hmemcs k).mp hkcs
      rw [if_pos hkcs, hdk] at hdk'
      by_cases hd1 : d = 1
      · subst hd1
        exact absurd ((hzsMem k).mpr ⟨hkcs, hdk⟩) hkk.2
      · have hform : (if d = 1 then Option.none else some (d - 1)) = some d' := hdk'
        rw [if_neg hd1] at hform
        have hd' : d' = d - 1 := (Option.some.inj hform).symm
        rw [if_pos hind] at hcnt
        have hpos : 0 < d := inv.degPos (k, d) hmemd
        omega
    · have hind : (node, k) ∉ g.edges := fun h => hkcs ((hmemcs k).mpr h)
      rw [if_neg hkcs, hdk] at hdk'
      have hd' : d' = d := (Option.some.inj hdk').symm
      rw [if_neg hind] at hcnt
      omega
  · -- zeroSrc
    intro e he hmem
    rcases List.mem_append.mp hmem with hmem | hmem
    · exact List.mem_append.mpr (Or.inl (inv.zeroSrc e he (hzero'Sub e.2 hmem)))
    · have h1 : alGet degs e.2 = some 1 := ((hzsMem e.2).mp hmem).2
      have hcs2 : e.2 ∈ cs := ((hzsMem e.2).mp hmem).1
      have hone : (1 : Nat) = (g.edges.filter (fun x =>
          x.2 = e.2 ∧ (x.1 ∈ zero ∨ x.1 ∈ degs.map Prod.fst))).length :=
        inv.degCount (e.2, 1) (mem_of_alGet h1)
      have hcnt := hcount e.2
      rw [if_pos ((hmemcs e.2).mp hcs2)] at hcnt
      have hzerolen : (g.edges.filter (fun x =>
          x.2 = e.2 ∧ (x.1 ∈ zero' ++ zs ∨ x.1 ∈ degs'.map Prod.fst))).length = 0 := by
        omega
      have hnotin : ¬ (e.1 ∈ zero' ++ zs ∨ e.1 ∈ degs'.map Prod.fst) := by
        intro hin
        have : e ∈ g.edges.filter (fun x =>
            x.2 = e.2 ∧ (x.1 ∈ zero' ++ zs ∨ x.1 ∈ degs'.map Prod.fst)) :=
          List.mem_filter.mpr ⟨he, by simp only [decide_eq_true_eq]; exact ⟨trivial, hin⟩⟩
        rw [List.length_eq_zero.mp hzerolen] at this
        cases this
      have hn1 : e.1 ∈ g.nodes := (hclosed e he).1
      rcases (inv.cover e.1).mp hn1 with h | h | h
      · exact List.mem_append.mpr (Or.inl h)
      · rw [← hsplitz] at h
        rcases List.mem_append.mp h with h | h
        · exact absurd (Or.inl (List.mem_append.mpr (Or.inl h))) hnotin
        · rw [List.mem_singleton] at h
          exact List.mem_append.mpr (Or.inr (by simp [h]))
      · by_cases hzs1 : e.1 ∈ zs
        · exact absurd (Or.inl (List.mem_append.mpr (Or.inr hzs1))) hnotin
        · exact absurd (Or.inr ((hkeys'Mem e.1).mpr ⟨h, hzs1⟩)) hnotin
  · -- accOrd
    intro e he hmem
    rcases List.mem_append.mp hmem with hmem | hmem
    · obtain ⟨h1, h2⟩ := inv.accOrd e he hmem
      refine ⟨List.mem_append.mpr (Or.inl h1), ?_⟩
      rw [idxOf_append_left [node] h1, idxOf_append_left [node] hmem]
      exact h2
    · rw [List.mem_singleton] at hmem
      have h1 : e.1 ∈ acc := inv.zeroSrc e he (hmem ▸ hnodeZ)
      have hnacc : node ∉ acc := fun h => inv.dAZ node h hnodeZ
      refine ⟨List.mem_append.mpr (Or.inl h1), ?_⟩
      rw [idxOf_append_left [node] h1, hmem, idxOf_append_right [node] hnacc]
      have := idxOf_lt_length h1
      simp [idxOf]
      omega

/-- The invariant holds at the Kahn loop's entry state. -/
theorem KInv.init {g : DiGraph} (hnodes : g.nodes.Nodup)
    (hclosed : ∀ e ∈ g.edges, e.1 ∈ g.nodes ∧ e.2 ∈ g.nodes) :
    KInv g (g.nodes.filter (fun n => g.inDeg n = 0))
      ((g.nodes.filter (fun n => g.inDeg n ≠ 0)).map (fun n => (n, g.inDeg n)))
      [] := by
  have hkeys : ((g.nodes.filter (fun n => g.inDeg n ≠ 0)).map
      (fun n => (n, g.inDeg n))).map Prod.fst =
      g.nodes.filter (fun n => g.inDeg n ≠ 0) := by
    rw [List.map_map]
    exact List.map_id'' (fun _ => rfl) _
  refine ⟨List.nodup_nil, hnodes.filter _, ?_, ?_, ?_, ?_, ?_, ?_, ?_, ?_, ?_⟩
  · rw [hkeys]
    exact hnodes.filter _
  · intro a ha
    cases ha
  · intro a ha
    cases ha
  · intro a ha
    rw [hkeys]
    intro hb
    have h1 := (List.mem_filter.mp ha).2
    have h2 := (List.mem_filter.mp hb).2
    simp only [decide_eq_true_eq] at h1 h2
    exact h2 h1
  · intro n
    rw [hkeys]
    constructor
    · intro hn
      by_cases h : g.inDeg n = 0
      · exact Or.inr (Or.inl (List.mem_filter.mpr ⟨hn, by simp [h]⟩))
      · exact Or.inr (Or.inr (List.mem_filter.mpr ⟨hn, by simp [h]⟩))
    · rintro (h | h | h)
      · cases h
      · exact (List.mem_filter.mp h).1
      · exact (List.mem_filter.mp h).1
  · rintro ⟨k, d⟩ hmem
    rcases List.mem_map.mp hmem with ⟨n, hn, heq⟩
    obtain ⟨rfl, rfl⟩ : n = k ∧ g.inDeg n = d := by
      injection heq with h1 h2
      exact ⟨h1, h2⟩
    have := (List.mem_filter.mp hn).2
    simp only [decide_eq_true_eq] at this
    omega
  · rintro ⟨k, d⟩ hmem
    rcases List.mem_map.mp hmem with ⟨n, hn, heq⟩
    obtain ⟨rfl, rfl⟩ : n = k ∧ g.inDeg n = d := by
      injection heq with h1 h2
      exact ⟨h1, h2⟩
    show g.inDeg n = _
    rw [DiGraph.inDeg]
    rw [← List.countP_eq_length_filter, ← List.countP_eq_length_filter]
    apply List.countP_congr
    intro e he
    simp only [decide_eq_true_eq]
    constructor
    · intro h2
      refine ⟨h2, ?_⟩
      have h1 : e.1 ∈ g.nodes := (hclosed e he).1
      rw [hkeys]
      by_cases h : g.inDeg e.1 = 0
      · exact Or.inl (List.mem_filter.mpr ⟨h1, by simp [h]⟩)
      · exact Or.inr (List.mem_filter.mpr ⟨h1, by simp [h]⟩)
    · exact fun h => h.1
  · intro e he hmem
    have h0 := (List.mem_filter.mp hmem).2
    simp only [decide_eq_true_eq] at h0
    have : e ∈ g.edges.filter (fun x => x.2 = e.2) :=
      List.mem_filter.mpr ⟨he, by simp⟩
    rw [DiGraph.inDeg] at h0
    rw [List.length_eq_zero.mp h0] at this
    cases this
  · intro e _ hmem
    cases hmem

/-- A successful run of the Kahn loop from an invariant state yields a valid
topological order. -/
theorem kahnGo_topoValid {g : DiGraph}
    (hedges : g.edges.Nodup)
    (hclosed : ∀ e ∈ g.edges, e.1 ∈ g.nodes ∧ e.2 ∈ g.nodes) :
    ∀ (fuel : Nat) (zero : List String) (degs : List (String × Nat))
      (acc topo : List String), KInv g zero degs acc →
      kahnGo g fuel zero degs acc = some topo → TopoValid g topo := by
  intro fuel
  induction fuel with
  | zero =>
    intro zero degs acc topo _ hrun
    cases hrun
  | succ fuel ih =>
    intro zero degs acc topo inv hrun
    rw [kahnGo] at hrun
    cases hlast : zero.getLast? with
    | none =>
      rw [hlast] at hrun
      by_cases hd : degs.isEmpty
      · rw [if_pos hd] at hrun
        have htopo : topo = acc := by
          injection hrun with h
          exact h.symm
        subst htopo
        have hzero : zero = [] := by
          cases zero with
          | nil => rfl
          | cons a rest => simp [List.getLast?_concat] at hlast
        have hdeg : degs = [] := List.isEmpty_iff.mp hd
        subst hzero hdeg
        refine ⟨?_, inv.accN, ?_⟩
        · intro n hn
          rcases (inv.cover n).mp hn with h | h | h
          · exact h
          · cases h
          · simp at h
        · intro e he
          have h2 : e.2 ∈ g.nodes := (hclosed e he).2
          rcases (inv.cover e.2).mp h2 with h | h | h
          · exact (inv.accOrd e he h).2
          · cases h
          · simp at h
      · rw [if_neg hd] at hrun
        cases hrun
    | some node =>
      rw [hlast] at hrun
      exact ih _ _ _ _ (inv.step hedges hclosed hlast) hrun

/-- A successful `nx.topological_sort` yields a valid topological order. -/
theorem kahn_topoValid {g : DiGraph} {topo : List String}
    (hnodes : g.nodes.Nodup) (hedges : g.edges.Nodup)
    (hclosed : ∀ e ∈ g.edges, e.1 ∈ g.nodes ∧ e.2 ∈ g.nodes)
    (h : kahn g = some topo) : TopoValid g topo :=
  kahnGo_topoValid hedges hclosed _ _ _ _ _ (KInv.init hnodes hclosed) h

/-- Along a non-empty edge path positions strictly increase in a valid
topological order. -/
theorem edgePath_idx_lt {g : DiGraph} {topo : List String}
    (hvalid : TopoValid g topo) :
    ∀ (p : List String) (u v : String), edgePathB g u p v = true →
      idxOf u topo < idxOf v topo := by
  intro p
  induction p with
  | nil =>
    intro u v h
    simp only [edgePathB, decide_eq_true_eq] at h
    exact hvalid.2.2 (u, v) h
  | cons w ws ih =>
    intro u v h
    simp only [edgePathB, Bool.and_eq_true, decide_eq_true_eq] at h
    exact lt_trans (hvalid.2.2 (u, w) h.1) (ih w v h.2)

/-- A graph with a cycle admits no successful Kahn run. -/
theorem kahn_isNone_of_cycle {g : DiGraph} {n : String} {p : List String}
    (hnodes : g.nodes.Nodup) (hedges : g.edges.Nodup)
    (hclosed : ∀ e ∈ g.edges, e.1 ∈ g.nodes ∧ e.2 ∈ g.nodes)
    (hcycle : edgePathB g n p n = true) : kahn g = .none := by
  cases h : kahn g with
  | none => rfl
  | some topo =>
    have hvalid := kahn_topoValid hnodes hedges hclosed h
    exact absurd (edgePath_idx_lt hvalid p n n hcycle) (lt_irrefl _)

/-- C3 counterexample: the table `x = "y + m"`, `y = "x + 1"` has a cycle
between the declared variables `x` and `y`, yet `resolve` fails with the
unbound-variables error naming `m` — not with a cyclic-dependency error: the
unbound scan runs first. -/
theorem c3_counterexample_unbound_masks_cycle :
    edgePathB c3Resolver.graph "x" ["y"] "x" = true ∧
    c3Resolver.resolve = .error (.unboundVariables ["m"]) ∧
    PyErr.unboundVariables ["m"] ≠ PyErr.networkXUnfeasible :=
  ⟨rfl, rfl, by decide⟩

/-- C3 amended: for EVERY variable table whose dependency graph contains a
cycle (here: a non-empty edge path from `n` back to `n`) and which passes
the unbound-names scan, `resolve` fails with the cyclic-dependency error —
the generic `NetworkXUnfeasible`, which does not name the cycle's members —
and `eval` propagates it without evaluating any variable.  When the scan
reports names, resolution fails with the unbound-variables error instead
(see the counterexample); note a passing scan forces every graph node to be
declared, so the cycle is then automatically among declared variables. -/
theorem c3_cycle_detection_amended (r : DependencyResolver) (n : String)
    (p : List String)
    (hcycle : edgePathB r.graph n p n = true)
    (hscan : invalidScan r.graph.nodes (r.table.map (fun v => v.name)) = [])
    (hnodes : r.graph.nodes.Nodup) (hedges : r.graph.edges.Nodup)
    (hclosed : ∀ e ∈ r.graph.edges, e.1 ∈ r.graph.nodes ∧ e.2 ∈ r.graph.nodes) :
    r.resolve = .error .networkXUnfeasible ∧
    r.eval = .error (.resolveFailed .networkXUnfeasible) := by
  have hk : kahn r.graph = .none := kahn_isNone_of_cycle hnodes hedges hclosed hcycle
  have hres : r.resolve = .error .networkXUnfeasible := by
    unfold DependencyResolver.resolve
    rw [hscan, hk]
    simp
  refine ⟨hres, ?_⟩
  unfold DependencyResolver.eval
  rw [hres]

/-- C3 amended witness: Scenario B (`x = "y+1"`, `y = "x+1"`) satisfies the
hypotheses with the cycle `x → y → x`, and resolution and evaluation fail
with the generic cyclic-dependency error. -/
theorem c3_cycle_detection_amended_witness :
    edgePathB scenarioBResolver.graph "x" ["y"] "x" = true ∧
    scenarioBResolver.resolve = .error .networkXUnfeasible ∧
    scenarioBResolver.eval = .error (.resolveFailed .networkXUnfeasible) :=
  ⟨rfl,
   (c3_cycle_detection_amended scenarioBResolver "x" ["y"] rfl rfl
     (by decide) (by decide) (by decide)).1,
   (c3_cycle_detection_amended scenarioBResolver "x" ["y"] rfl rfl
     (by decide) (by decide) (by decide)).2⟩
